import Mathlib

/-!
Verification of the bid-tracking reconciliation engine (`BidTools.py`).

The Python source is shallowly embedded below.  Strings are modelled as
`String` / `List Char`; the Python regular expressions used by the source
(`[\\/:*?"<>|]`, `\s+`, `\s-\s`, `^\s*(\d+)\b`, `^(0?[1-9]|1[0-2])-(0?[1-9]|[12]\d|3[01])$`)
are embedded as executable character-level functions with the same
semantics.  The character class `\s` (and `str.strip`) is modelled over its
ASCII portion (space, tab, newline, carriage return, vertical tab, form
feed), and `\w` over its ASCII portion (letters, digits, underscore); the
worksheet cells modelled here hold textual values (`Option String`), which
is the only kind of value the embedded operations ever write.
-/

set_option autoImplicit false

namespace BidTools

/-- ASCII model of the `\s` character class of Python regular expressions,
also used by `str.strip`. -/
def isWS (c : Char) : Bool :=
  c = ' ' || c = '\t' || c = '\n' || c = '\x0d' || c = '\x0b' || c = '\x0c'

/-- The character class `[\\/:*?"<>|]` of `sanitize_name`: characters that are
illegal in filesystem names. -/
def isIllegal (c : Char) : Bool :=
  c = '\\' || c = '/' || c = ':' || c = '*' || c = '?' || c = '"' || c = '<' || c = '>' || c = '|'

/-- One step of `re.sub(r"[\\/:*?\"<>|]", " ", value)`: an illegal character
becomes a single space. -/
def replC (c : Char) : Char :=
  if isIllegal c then ' ' else c

/-- A whitespace character surviving into the output of `re.sub(r"\s+", " ", value)`
is rendered as a plain space. -/
def normWS (c : Char) : Char :=
  if isWS c then ' ' else c

/-- `re.sub(r"\s+", " ", value)`: every maximal run of whitespace becomes one
space.  A whitespace character followed by another whitespace character is
dropped; the last character of a run is kept as a space. -/
def collapseWS : List Char → List Char
  | [] => []
  | [c] => [normWS c]
  | a :: b :: t =>
    if isWS a && isWS b then collapseWS (b :: t)
    else normWS a :: collapseWS (b :: t)

/-- Left part of `str.strip()`. -/
def ltrimL (l : List Char) : List Char :=
  l.dropWhile (fun c => isWS c)

/-- Right part of `str.strip()`. -/
def rdropL (l : List Char) : List Char :=
  (ltrimL l.reverse).reverse

/-- `str.strip()` on a character list. -/
def trimL (l : List Char) : List Char :=
  ltrimL (rdropL l)

/-- `sanitize_name` on a character list: replace illegal characters by a
space, collapse whitespace runs to one space, strip the ends. -/
def sanitizeL (l : List Char) : List Char :=
  trimL (collapseWS (l.map replC))

/-- `sanitize_name(value)` (the `None` case of the Python optional argument is
not needed by the embedded operations). -/
def sanitize_name (s : String) : String :=
  ⟨sanitizeL s.toList⟩

/-- `str.strip()` on a string. -/
def trimS (s : String) : String :=
  ⟨trimL s.toList⟩

/-- The separator pattern `\s-\s` of `parse_bid_folder_name` tested on a
three-character window. -/
def isSepWindow (a b c : Char) : Bool :=
  isWS a && b = '-' && isWS c

/-- `re.split(r"\s-\s", folder_name, maxsplit=4)`: left-to-right scan,
splitting at each non-overlapping leftmost occurrence of
whitespace-dash-whitespace, at most `fuel` times; `acc` is the reversed
current part. -/
def splitWS (fuel : Nat) (acc : List Char) (rest : List Char) : List (List Char) :=
  match fuel, rest with
  | _, [] => [acc.reverse]
  | 0, rest => [acc.reverse ++ rest]
  | f + 1, a :: b :: c :: t =>
    if isSepWindow a b c then acc.reverse :: splitWS f [] t
    else splitWS (f + 1) (a :: acc) (b :: c :: t)
  | f + 1, a :: rest1 => splitWS (f + 1) (a :: acc) rest1

/-- The record produced by `parse_bid_folder_name` (`BidFolderInfo`). -/
structure BidFolderInfo where
  bid_number : String
  initials : String
  bid_date : String
  customer : String
  bid_name : String
  folder : String
  deriving DecidableEq

/-- `parse_bid_folder_name`: split on `\s-\s` with `maxsplit=4`; fewer than 5
parts gives `None`; otherwise each part is stripped.  (`splitWS` with fuel 4
always produces between 1 and 5 parts, so the wildcard branch covers exactly
the lists of fewer than 5 parts.) -/
def parse_bid_folder_name (s : String) : Option BidFolderInfo :=
  match splitWS 4 [] s.toList with
  | [p0, p1, p2, p3, p4] =>
    some ⟨⟨trimL p0⟩, ⟨trimL p1⟩, ⟨trimL p2⟩, ⟨trimL p3⟩, ⟨trimL p4⟩, s⟩
  | _ => none

/-- `build_bid_folder_name`: join the five fields with a literal " - " and
sanitize the whole string.  The bid number is an `Int` in the source and is
rendered in decimal by the f-string. -/
def build_bid_folder_name (bid_number : Int) (initials bid_date customer bid_name : String) :
    String :=
  sanitize_name ⟨(toString bid_number).toList ++ ' ' :: '-' :: ' ' :: (initials.toList ++
    ' ' :: '-' :: ' ' :: (bid_date.toList ++ ' ' :: '-' :: ' ' :: (customer.toList ++
      ' ' :: '-' :: ' ' :: bid_name.toList)))⟩

/-- Error taxonomy of the specification.  `notFound` stands for the
`FileNotFoundError` / `ValueError("... not found ...")` exits of the source,
`validation` for the malformed-input `ValueError`, `conflict` for
`FileExistsError`. -/
inductive BErr where
  | notFound (msg : String)
  | validation (msg : String)
  | conflict (msg : String)
  deriving DecidableEq

/-- Numeric value of a decimal digit list (the `int(...)` of a matched digit
group). -/
def digitsVal (l : List Char) : Nat :=
  l.foldl (fun n c => 10 * n + (c.toNat - '0'.toNat)) 0

/-- The month alternative `(0?[1-9]|1[0-2])` of `normalize_bid_date`, anchored
on an exact character list. -/
def monthVal : List Char → Option Nat
  | [c] => if '1' ≤ c && c ≤ '9' then some (digitsVal [c]) else none
  | ['0', c] => if '1' ≤ c && c ≤ '9' then some (digitsVal [c]) else none
  | ['1', c] => if '0' ≤ c && c ≤ '2' then some (digitsVal ['1', c]) else none
  | _ => none

/-- The day alternative `(0?[1-9]|[12]\d|3[01])` of `normalize_bid_date`,
anchored on an exact character list. -/
def dayVal : List Char → Option Nat
  | [c] => if '1' ≤ c && c ≤ '9' then some (digitsVal [c]) else none
  | ['0', c] => if '1' ≤ c && c ≤ '9' then some (digitsVal [c]) else none
  | ['1', c] => if c.isDigit then some (digitsVal ['1', c]) else none
  | ['2', c] => if c.isDigit then some (digitsVal ['2', c]) else none
  | ['3', c] => if c = '0' || c = '1' then some (digitsVal ['3', c]) else none
  | _ => none

/-- Split a character list at its first dash.  Both regex alternatives of
`normalize_bid_date` are dash-free, so the anchored pattern
`^(month)-(day)$` matches exactly when the text up to the first dash is a
month form and the text after it is a day form. -/
def splitFirstDash : List Char → Option (List Char × List Char)
  | [] => none
  | c :: t =>
    if c = '-' then some ([], t)
    else match splitFirstDash t with
      | some (m, d) => some (c :: m, d)
      | none => none

/-- Zero-padded two-digit rendering (`f"{n:02d}"` for the values 1..31 in
range here). -/
def pad2 (n : Nat) : String :=
  if n < 10 then "0" ++ toString n else toString n

/-- In an unanchored-to-multiline Python pattern, `$` matches at the end of
the string or just before one trailing newline; the remainder after the day
group must therefore be empty or a single `"\n"`. -/
def dollarEnd (rest : List Char) : Bool :=
  rest = [] || rest = ['\n']

/-- The day-and-anchor part of `normalize_bid_date` on the remainder after
the dash: the day group takes two characters when a two-character day form
is followed by a `$`-accepted tail, else one character; the decomposition
into a day form and a `$`-accepted tail is unique because no day form has a
newline in it. -/
def dayDollar (rest : List Char) : Option Nat :=
  let dayLen2 := decide (rest.length ≥ 2) && (dayVal (rest.take 2)).isSome &&
    dollarEnd (rest.drop 2)
  let dcand := if dayLen2 then rest.take 2 else rest.take 1
  let drest := if dayLen2 then rest.drop 2 else rest.drop 1
  match dayVal dcand with
  | none => none
  | some dv => if dollarEnd drest then some dv else none

/-- `normalize_bid_date`: match `^(0?[1-9]|1[0-2])-(0?[1-9]|[12]\d|3[01])$`
and return the zero-padded `MM-DD` form, else a `ValueError`. -/
def normalize_bid_date (raw_date : String) : Except BErr String :=
  match splitFirstDash raw_date.toList with
  | none => .error (.validation raw_date)
  | some (m, rest) =>
    match monthVal m with
    | none => .error (.validation raw_date)
    | some mv =>
      match dayDollar rest with
      | none => .error (.validation raw_date)
      | some dv => .ok (pad2 mv ++ "-" ++ pad2 dv)

/-- ASCII model of the `\w` character class (letters, digits, underscore),
used by the word-boundary assertion `\b`. -/
def isWordChar (c : Char) : Bool :=
  c.isAlphanum || c = '_'

/-- `re.match(r"^\s*(\d+)\b", name)`: optional leading whitespace, then a
digit run, whose end must be a word boundary.  The digit run is maximal, so
the boundary holds exactly when the following character is absent or not a
word character (backtracking inside the run always lands between two word
characters and fails). -/
def leadNumber (name : String) : Option Nat :=
  let r := name.toList.dropWhile (fun c => isWS c)
  let ds := r.takeWhile Char.isDigit
  if ds.isEmpty then none
  else match (r.drop ds.length).head? with
    | none => some (digitsVal ds)
    | some c => if isWordChar c then none else some (digitsVal ds)

/-- Lexicographic code-point comparison of two character lists: the order
`sorted` uses on Python strings. -/
def lexLe : List Char → List Char → Bool
  | [], _ => true
  | _ :: _, [] => false
  | a :: s, b :: t =>
    if a.toNat < b.toNat then true
    else if b.toNat < a.toNat then false
    else lexLe s t

/-- Insertion step of the name sort used by `get_bid_folders`. -/
def insertByName (x : String) : List String → List String
  | [] => [x]
  | y :: t => if lexLe x.toList y.toList then x :: y :: t else y :: insertByName x t

/-- `get_bid_folders`: the top-level directory names under the bid root,
sorted by name.  The bid root is modelled by the list of its entries. -/
def get_bid_folders (bid_root : List String) : List String :=
  bid_root.foldr insertByName []

/-- `get_next_bid_number`: maximum of the leading numbers of the folder
names; error if that maximum is 0. -/
def get_next_bid_number (bid_root : List String) : Except BErr Nat :=
  let mx := (get_bid_folders bid_root).foldl
    (fun mv n =>
      match leadNumber n with
      | some v => if v > mv then v else mv
      | none => mv) 0
  if mx = 0 then .error (.notFound "No existing bid-number folders found")
  else .ok (mx + 1)

/-- A worksheet: a grid of optional textual cell values addressed by
(1-based row, 1-based column), together with the `max_row` maintained by the
storage library.  The embedded operations only ever read rows up to
`max_row` (or row 1), so the read-creates-a-cell behaviour of the library
never changes `max_row` and is not modelled. -/
structure Worksheet where
  cells : Nat → Nat → Option String
  maxRow : Nat

/-- Cell assignment, extending `max_row` if needed. -/
def writeCell (ws : Worksheet) (r c : Nat) (v : String) : Worksheet :=
  { cells := fun r2 c2 => if r2 = r ∧ c2 = c then some v else ws.cells r2 c2
    maxRow := max ws.maxRow r }

/-- A fresh worksheet created by `create_sheet`: no cells, `max_row = 1`. -/
def emptyWS : Worksheet :=
  ⟨fun _ _ => none, 1⟩

/-- Python truthiness of a cell value: `None` and the empty string are
falsy. -/
def truthy : Option String → Bool
  | none => false
  | some s => !s.isEmpty

/-- `get_last_row`: `worksheet.max_row or 1` (the library keeps
`max_row ≥ 1`, the `or 1` guards the falsy cases). -/
def get_last_row (ws : Worksheet) : Nat :=
  max ws.maxRow 1

/-- `get_cell_text`: empty string for a missing value, else the stripped
text. -/
def get_cell_text (ws : Worksheet) (r c : Nat) : String :=
  match ws.cells r c with
  | none => ""
  | some s => trimS s

/-- The comparison performed for one row by `get_row_index_by_value`:
skip `None`, else compare the stripped text with the target. -/
def cellMatches (ws : Worksheet) (r c : Nat) (target : String) : Bool :=
  match ws.cells r c with
  | none => false
  | some s => trimS s == target

/-- `get_row_index_by_value`: first row in 2..last_row whose stripped cell
text in the given column equals the target. -/
def get_row_index_by_value (ws : Worksheet) (col : Nat) (target : String) : Option Nat :=
  (List.range' 2 (get_last_row ws - 1)).find? (fun r => cellMatches ws r col target)

/-- `HEADER_DEFAULTS`: the canonical header labels, in order. -/
def HEADER_DEFAULTS : List String :=
  ["Bid Folder", "Bid Number", "Estimator", "Bid Due Date", "Customer/GC",
   "Bid Name", "Proposal Date", "Proposal Amount", "Bid Status"]

/-- `enumerate(HEADER_DEFAULTS, start=1)`. -/
def headerPairs : List (Nat × String) :=
  HEADER_DEFAULTS.enum.map (fun p => (p.1 + 1, p.2))

/-- The `legacy_header_map` lookup with the identity default
(`legacy_header_map.get(str(value), str(value))`). -/
def legacyMap (s : String) : String :=
  if s = "Folder Name" then "Bid Folder"
  else if s = "Bid#" then "Bid Number"
  else if s = "GC/Owner" then "Customer/GC"
  else if s = "Description" then "Bid Name"
  else if s = "Due Date" then "Bid Due Date"
  else if s = "Status" then "Bid Status"
  else s

/-- The `headers` dictionary: header label to 1-based column index. -/
def HMap : Type := String → Option Nat

/-- Empty dictionary. -/
def emptyH : HMap := fun _ => none

/-- Dictionary assignment `m[k] = v`. -/
def insertH (m : HMap) (k : String) (v : Nat) : HMap :=
  fun x => if x = k then some v else m x

/-- `m.setdefault(k, v)`. -/
def setdefaultH (m : HMap) (k : String) (v : Nat) : HMap :=
  if (m k).isSome then m else insertH m k v

/-- One column of the first loop of `ensure_headers`: a truthy cell is
alias-resolved, rewritten in place when the alias differs, and recorded
under its canonical name (first occurrence wins). -/
def ensureStep (st : Worksheet × HMap × Bool) (col : Nat) : Worksheet × HMap × Bool :=
  match st.1.cells 1 col with
  | none => st
  | some s =>
    if s.isEmpty then st
    else
      let canonical := legacyMap s
      let ws2 := if canonical ≠ s then writeCell st.1 1 col canonical else st.1
      (ws2, setdefaultH st.2.1 canonical col, true)

/-- `ensure_headers`: scan row 1 of columns 1..30, resolve aliases; if the
row was empty write the canonical headers into columns 1..9; otherwise
rewrite columns 1..9 to the canonical order when any of them differs; in
either branch the returned mapping sends each canonical header to its
canonical column. -/
def ensure_headers (ws : Worksheet) : Worksheet × HMap :=
  let scan := (List.range' 1 30).foldl ensureStep (ws, emptyH, false)
  let ws1 := scan.1
  let headers := scan.2.1
  let hasAny := scan.2.2
  if !hasAny then
    let ws2 := headerPairs.foldl (fun w p => writeCell w 1 p.1 p.2) ws1
    let m2 := headerPairs.foldl (fun m p => insertH m p.2 p.1) emptyH
    (ws2, m2)
  else
    let needsReorder := headerPairs.any (fun p => ws1.cells 1 p.1 ≠ some p.2)
    let ws2 := if needsReorder then
        headerPairs.foldl (fun w p => writeCell w 1 p.1 p.2) ws1
      else ws1
    let m2 := headerPairs.foldl (fun m p => insertH m p.2 p.1) headers
    (ws2, m2)

/-- Total lookup `headers[k]`, which in the source never fails because the
mapping returned by `ensure_headers` contains every canonical header. -/
def hcol (m : HMap) (k : String) : Nat :=
  (m k).getD 0

/-- `write_row`: write the six derivable fields of a record into the row's
canonical columns. -/
def write_row (ws : Worksheet) (m : HMap) (row : Nat) (i : BidFolderInfo) : Worksheet :=
  let w1 := writeCell ws row (hcol m "Bid Folder") i.folder
  let w2 := writeCell w1 row (hcol m "Bid Number") i.bid_number
  let w3 := writeCell w2 row (hcol m "Estimator") i.initials
  let w4 := writeCell w3 row (hcol m "Bid Due Date") i.bid_date
  let w5 := writeCell w4 row (hcol m "Customer/GC") i.customer
  writeCell w5 row (hcol m "Bid Name") i.bid_name

/-- One folder of the sync loop: parse, resolve the target row (bid number,
then folder name, then append at the running last-row counter), write. -/
def syncStep (m : HMap) (st : Worksheet × Nat) (name : String) : Worksheet × Nat :=
  match parse_bid_folder_name name with
  | none => st
  | some info =>
    match get_row_index_by_value st.1 (hcol m "Bid Number") info.bid_number with
    | some r => (write_row st.1 m r info, st.2)
    | none =>
      match get_row_index_by_value st.1 (hcol m "Bid Folder") info.folder with
      | some r => (write_row st.1 m r info, st.2)
      | none => (write_row st.1 m (st.2 + 1) info, st.2 + 1)

/-- The folder loop of `sync_bid_workbook` on an already-opened worksheet. -/
def sync_rows (m : HMap) (ws : Worksheet) (bid_root : List String) : Worksheet × Nat :=
  (get_bid_folders bid_root).foldl (syncStep m) (ws, get_last_row ws)

/-- The whole worksheet transformation of one `sync_bid_workbook` run:
normalize headers, then reconcile every folder. -/
def syncWS (bid_root : List String) (ws : Worksheet) : Worksheet :=
  let eh := ensure_headers ws
  (sync_rows eh.2 eh.1 bid_root).1

/-- A workbook file path, split as stem plus extension so that
`get_pending_save_path` can be expressed. -/
structure WPath where
  stem : String
  ext : String
  deriving DecidableEq

/-- `get_pending_save_path`: insert " - Pending Update <stamp>" before the
extension.  The timestamp `datetime.now().strftime("%Y%m%d-%H%M%S")` is a
parameter of the embedding. -/
def get_pending_save_path (p : WPath) (stamp : String) : WPath :=
  ⟨p.stem ++ " - Pending Update " ++ stamp, p.ext⟩

/-- A workbook: its named worksheets, in order. -/
def Workbook : Type := List (String × Worksheet)

/-- Sheet lookup by name. -/
def lookupSheet (wb : Workbook) (name : String) : Option Worksheet :=
  (wb.find? (fun q => q.1 == name)).map (fun q => q.2)

/-- Replace the named sheet, or append it (`create_sheet`) when absent. -/
def setSheet : Workbook → String → Worksheet → Workbook
  | [], name, ws => [(name, ws)]
  | q :: t, name, ws => if q.1 = name then (name, ws) :: t else q :: setSheet t name ws

/-- The worksheet the context works on: the named sheet, or a fresh empty
sheet created by `create_sheet`. -/
def getSheet (wb : Workbook) (name : String) : Worksheet :=
  match lookupSheet wb name with
  | some ws => ws
  | none => emptyWS

/-- The filesystem as seen by the workbook store: file contents by path and
which paths are exclusively locked by another process. -/
structure FS where
  files : WPath → Option Workbook
  locked : WPath → Bool

/-- `ExcelContext` (the worksheet field is re-derived from the workbook and
sheet name where needed). -/
structure ExcelContext where
  workbook : Workbook
  sheetName : String
  read_only : Bool
  pending_save_path : Option WPath
  workbook_path : WPath

/-- `new_excel_context`: missing file is an error; a `PermissionError` on
load (exclusive lock) redirects to a timestamped side-copy of the bytes,
which as a freshly created file is not locked; otherwise load in place. -/
def new_excel_context (fs : FS) (path : WPath) (worksheet_name : String) (stamp : String) :
    Except BErr (ExcelContext × FS) :=
  match fs.files path with
  | none => .error (.notFound "Workbook not found")
  | some wb =>
    if fs.locked path then
      let pp := get_pending_save_path path stamp
      let fs1 : FS :=
        ⟨fun q => if q = pp then some wb else fs.files q,
         fun q => if q = pp then false else fs.locked q⟩
      .ok (⟨wb, worksheet_name, true, some pp, path⟩, fs1)
    else
      .ok (⟨wb, worksheet_name, false, none, path⟩, fs)

/-- The path `close_excel_context` saves to. -/
def saveTarget (ctx : ExcelContext) : WPath :=
  match ctx.pending_save_path with
  | some pp => if ctx.read_only then pp else ctx.workbook_path
  | none => ctx.workbook_path

/-- `close_excel_context`: persist the in-memory workbook (with the
worksheet as mutated) to the active path. -/
def close_excel_context (fs : FS) (ctx : ExcelContext) (wsFinal : Worksheet) : FS :=
  let wb2 := setSheet ctx.workbook ctx.sheetName wsFinal
  ⟨fun q => if q = saveTarget ctx then some wb2 else fs.files q, fs.locked⟩

/-- `sync_bid_workbook`: open, sync, close; the returned path is the one
reported to the operator as the destination of the save. -/
def sync_bid_workbook (fs : FS) (bid_root : List String) (workbook_path : WPath)
    (worksheet_name : String) (stamp : String) : Except BErr (FS × WPath) :=
  match new_excel_context fs workbook_path worksheet_name stamp with
  | .error e => .error e
  | .ok (ctx, fs1) =>
    let ws := getSheet ctx.workbook worksheet_name
    let wsF := syncWS bid_root ws
    .ok (close_excel_context fs1 ctx wsF, saveTarget ctx)

/-- The interactive answers consumed by `update_bid_status`: `bidNumber` is
the value returned by `read_non_empty` (already sanitized and non-empty),
the text inputs are taken before `.strip()` is applied, and the booleans are
the yes/no answers to the two "Update it?" prompts. -/
structure UpdateInputs where
  bidNumber : String
  status : String
  updateAmount : Bool
  amountInput : String
  updateDate : Bool
  dateInput : String
  awardInput : String

/-- The body of `update_bid_status` between open and close: normalize
headers, locate the row by bid number (an error when absent), then
conditionally overwrite the status, proposal and award cells.  The worksheet
returned is the one the `finally` block saves, whether or not the lookup
failed. -/
def update_core (ws0 : Worksheet) (inp : UpdateInputs) : Except BErr Unit × Worksheet :=
  let eh := ensure_headers ws0
  let ws := eh.1
  let m := eh.2
  let status := trimS inp.status
  match get_row_index_by_value ws (hcol m "Bid Number") inp.bidNumber with
  | none => (.error (.notFound inp.bidNumber), ws)
  | some row =>
    let proposal_amount :=
      if (m "Proposal Amount").isSome then
        if get_cell_text ws row (hcol m "Proposal Amount") ≠ "" then
          if inp.updateAmount then trimS inp.amountInput else ""
        else trimS inp.amountInput
      else ""
    let proposal_date :=
      if (m "Proposal Date").isSome then
        if get_cell_text ws row (hcol m "Proposal Date") ≠ "" then
          if inp.updateDate then trimS inp.dateInput else ""
        else trimS inp.dateInput
      else ""
    let award := if (m "Award").isSome then trimS inp.awardInput else ""
    let w1 := if status ≠ "" ∧ (m "Bid Status").isSome then
        writeCell ws row (hcol m "Bid Status") status else ws
    let w2 := if proposal_amount ≠ "" ∧ (m "Proposal Amount").isSome then
        writeCell w1 row (hcol m "Proposal Amount") proposal_amount else w1
    let w3 := if proposal_date ≠ "" ∧ (m "Proposal Date").isSome then
        writeCell w2 row (hcol m "Proposal Date") proposal_date else w2
    let w4 := if award ≠ "" ∧ (m "Award").isSome then
        writeCell w3 row (hcol m "Award") award else w3
    (.ok (), w4)

/-- `update_bid_status`: open, run the body, and close in a `finally`, so
the workbook is saved to the active path even when the bid number was not
found. -/
def update_bid_status (fs : FS) (workbook_path : WPath) (worksheet_name : String)
    (inp : UpdateInputs) (stamp : String) : Except BErr Unit × FS :=
  match new_excel_context fs workbook_path worksheet_name stamp with
  | .error e => (.error e, fs)
  | .ok (ctx, fs1) =>
    let ws0 := getSheet ctx.workbook worksheet_name
    let res := update_core ws0 inp
    (res.1, close_excel_context fs1 ctx res.2)

/-- The integer formed by a name's leading run of digits, with no
whitespace skipping and no word-boundary requirement: the reading of the
claim for C7. -/
def claimLeadDigits (name : String) : Option Nat :=
  let ds := name.toList.takeWhile Char.isDigit
  if ds.isEmpty then none else some (digitsVal ds)

/-- Maximum of the matched leading numbers over a list of names (an unmatched
name contributes 0). -/
def maxLead (names : List String) : Nat :=
  names.foldr (fun n acc => max ((leadNumber n).getD 0) acc) 0

/-- The acceptance language asserted by the claim for C8: a month of one or
two digits with value 1..12, a dash, a day of one or two digits with value
1..31, and nothing else; zero-padded output. -/
def claimNormalize (s : String) : Except BErr String :=
  match splitFirstDash s.toList with
  | none => .error (.validation s)
  | some (m, d) =>
    if (m.all Char.isDigit ∧ 1 ≤ m.length ∧ m.length ≤ 2 ∧
          1 ≤ digitsVal m ∧ digitsVal m ≤ 12) ∧
        (d.all Char.isDigit ∧ 1 ≤ d.length ∧ d.length ≤ 2 ∧
          1 ≤ digitsVal d ∧ digitsVal d ≤ 31) then
      .ok (pad2 (digitsVal m) ++ "-" ++ pad2 (digitsVal d))
    else .error (.validation s)

/-- The amended acceptance language: as `claimNormalize`, but one trailing
newline after the day is tolerated, because the `$` anchor of the Python
pattern also matches just before a newline that ends the string. -/
def claimNormalizeNL (s : String) : Except BErr String :=
  match splitFirstDash s.toList with
  | none => .error (.validation s)
  | some (m, rest) =>
    let d := if rest.getLast? = some '\n' then rest.dropLast else rest
    if (m.all Char.isDigit ∧ 1 ≤ m.length ∧ m.length ≤ 2 ∧
          1 ≤ digitsVal m ∧ digitsVal m ≤ 12) ∧
        (d.all Char.isDigit ∧ 1 ≤ d.length ∧ d.length ≤ 2 ∧
          1 ≤ digitsVal d ∧ digitsVal d ≤ 31) then
      .ok (pad2 (digitsVal m) ++ "-" ++ pad2 (digitsVal d))
    else .error (.validation s)

/-- Whether a character list contains an occurrence of the pattern
whitespace-dash-whitespace. -/
def containsWDW : List Char → Bool
  | a :: b :: c :: t => isSepWindow a b c || containsWDW (b :: c :: t)
  | _ => false

/-- Whether a character list ends with a whitespace character followed by a
dash (in which case a separator match can start inside it and bleed into
what follows). -/
def endsWD : List Char → Bool
  | [w, d] => isWS w && d = '-'
  | _ :: b :: c :: t => endsWD (b :: c :: t)
  | _ => false

/-- `trimL` of the collapsed list, the core of `sanitize_name` after the
illegal-character replacement. -/
def tcL (l : List Char) : List Char :=
  trimL (collapseWS l)

/-- `write_row` with the canonical column indices that `ensure_headers`
always returns. -/
def write_rowC (ws : Worksheet) (row : Nat) (i : BidFolderInfo) : Worksheet :=
  writeCell (writeCell (writeCell (writeCell (writeCell (writeCell ws
    row 1 i.folder) row 2 i.bid_number) row 3 i.initials) row 4 i.bid_date)
    row 5 i.customer) row 6 i.bid_name

/-- `syncStep` with the canonical column indices. -/
def syncStepC (st : Worksheet × Nat) (name : String) : Worksheet × Nat :=
  match parse_bid_folder_name name with
  | none => st
  | some i =>
    match get_row_index_by_value st.1 2 i.bid_number with
    | some r => (write_rowC st.1 r i, st.2)
    | none =>
      match get_row_index_by_value st.1 1 i.folder with
      | some r => (write_rowC st.1 r i, st.2)
      | none => (write_rowC st.1 (st.2 + 1) i, st.2 + 1)

/-- The value one write places in one cell. -/
def cellOf (p : Nat × BidFolderInfo) (r c : Nat) : Option String :=
  if r = p.1 then
    if c = 6 then some p.2.bid_name
    else if c = 5 then some p.2.customer
    else if c = 4 then some p.2.bid_date
    else if c = 3 then some p.2.initials
    else if c = 2 then some p.2.bid_number
    else if c = 1 then some p.2.folder
    else none
  else none

/-- The records parsed out of a folder list, in order. -/
def recs (F : List String) : List BidFolderInfo :=
  F.filterMap parse_bid_folder_name

/-- A row holds exactly the six derivable fields of a record. -/
def rowHas (ws : Worksheet) (r : Nat) (i : BidFolderInfo) : Prop :=
  ws.cells r 1 = some i.folder ∧ ws.cells r 2 = some i.bid_number ∧
  ws.cells r 3 = some i.initials ∧ ws.cells r 4 = some i.bid_date ∧
  ws.cells r 5 = some i.customer ∧ ws.cells r 6 = some i.bid_name

/-- Whether a character list contains the exact literal separator
space-dash-space: the reading of the claims for C2 and C9. -/
def containsLitSep : List Char → Bool
  | a :: b :: c :: t => (a = ' ' && b = '-' && c = ' ') || containsLitSep (b :: c :: t)
  | _ => false

/-- Splitting on the exact literal separator space-dash-space with at most
`fuel` splits: the splitter asserted by the claim for C9. -/
def litSplit : Nat → List Char → List Char → List (List Char)
  | _, acc, [] => [acc.reverse]
  | 0, acc, rest => [acc.reverse ++ rest]
  | f + 1, acc, a :: b :: c :: t =>
    if a = ' ' && b = '-' && c = ' ' then acc.reverse :: litSplit f [] t
    else litSplit (f + 1) (a :: acc) (b :: c :: t)
  | f + 1, acc, a :: rest1 => litSplit (f + 1) (a :: acc) rest1

/-- The decoder asserted by the claim for C9: split on the exact literal
" - " with the first four splits literal, null when fewer than five parts
result, each part trimmed. -/
def claimDecode (s : String) : Option BidFolderInfo :=
  match litSplit 4 [] s.toList with
  | [p0, p1, p2, p3, p4] =>
    some ⟨⟨trimL p0⟩, ⟨trimL p1⟩, ⟨trimL p2⟩, ⟨trimL p3⟩, ⟨trimL p4⟩, s⟩
  | _ => none

/-! ### Sorting: the folder sort is a permutation -/

theorem insertByName_perm (x : String) (l : List String) :
    (insertByName x l).Perm (x :: l) := by
  induction l with
  | nil => simp [insertByName]
  | cons y t ih =>
    simp only [insertByName]
    by_cases h : lexLe x.toList y.toList = true
    · rw [if_pos h]
    · rw [if_neg h]
      exact (List.Perm.cons y ih).trans (List.Perm.swap x y t)

theorem get_bid_folders_perm (root : List String) :
    (get_bid_folders root).Perm root := by
  induction root with
  | nil => simp [get_bid_folders]
  | cons n t ih =>
    simp only [get_bid_folders, List.foldr_cons]
    exact (insertByName_perm n _).trans (List.Perm.cons n ih)

/-! ### C7: next bid number -/

theorem maxLead_perm {l1 l2 : List String} (h : l1.Perm l2) : maxLead l1 = maxLead l2 := by
  induction h with
  | nil => rfl
  | cons x _ ih => simp [maxLead, List.foldr_cons] at ih ⊢; omega
  | swap x y l => simp only [maxLead, List.foldr_cons]; omega
  | trans _ _ ih1 ih2 => exact ih1.trans ih2

theorem foldl_max_lead (l : List String) (a : Nat) :
    l.foldl (fun mv n =>
      match leadNumber n with
      | some v => if v > mv then v else mv
      | none => mv) a = max a (maxLead l) := by
  induction l generalizing a with
  | nil => simp [maxLead]
  | cons n t ih =>
    simp only [List.foldl_cons, maxLead, List.foldr_cons, ih]
    rcases h : leadNumber n with _ | v
    · simp [maxLead, h]; try omega
    · simp only [maxLead, h, Option.getD_some]
      by_cases hv : v > a <;> simp [hv] <;> try omega

theorem get_next_bid_number_eq (names : List String) :
    get_next_bid_number names =
      if maxLead names = 0 then .error (.notFound "No existing bid-number folders found")
      else .ok (maxLead names + 1) := by
  unfold get_next_bid_number
  rw [foldl_max_lead, maxLead_perm (get_bid_folders_perm names)]
  simp

/-! ### C8: due-date normalization -/

theorem char_le_toNat (a b : Char) : (a ≤ b) ↔ a.toNat ≤ b.toNat := by
  rw [Char.le_def, UInt32.le_def]
  simp [Char.toNat, UInt32.toNat, BitVec.le_def]

theorem char_eq_toNat (a b : Char) : (a = b) ↔ a.toNat = b.toNat := by
  constructor
  · intro h; rw [h]
  · intro h
    exact le_antisymm ((char_le_toNat a b).mpr h.le) ((char_le_toNat b a).mpr h.ge)

theorem char_isDigit_toNat (c : Char) : c.isDigit = true ↔ 48 ≤ c.toNat ∧ c.toNat ≤ 57 := by
  simp [Char.isDigit, Char.toNat, UInt32.le_def, BitVec.le_def, UInt32.toNat]

theorem digitsVal_one (c : Char) : digitsVal [c] = c.toNat - 48 := by
  simp [digitsVal, List.foldl]

theorem digitsVal_two (a b : Char) :
    digitsVal [a, b] = 10 * (a.toNat - 48) + (b.toNat - 48) := by
  simp [digitsVal, List.foldl]

/-- The month group accepts exactly the one- or two-digit strings whose value
is between 1 and 12. -/
theorem monthVal_eq (m : List Char) :
    monthVal m =
      if m.all Char.isDigit ∧ 1 ≤ m.length ∧ m.length ≤ 2 ∧
          1 ≤ digitsVal m ∧ digitsVal m ≤ 12 then
        some (digitsVal m)
      else none := by
  have e0 : ('0' : Char).toNat = 48 := by decide
  have e1 : ('1' : Char).toNat = 49 := by decide
  have e2 : ('2' : Char).toNat = 50 := by decide
  have e9 : ('9' : Char).toNat = 57 := by decide
  match m with
  | [] => simp [monthVal]
  | [c] =>
    simp only [monthVal, List.all_cons, List.all_nil, Bool.and_true, List.length_cons,
      List.length_nil, digitsVal_one, Bool.and_eq_true, decide_eq_true_eq,
      char_le_toNat, char_isDigit_toNat, e1, e9]
    split_ifs <;> first | rfl | omega
  | [a, b] =>
    by_cases ha0 : a = '0'
    · subst ha0
      simp only [monthVal, List.all_cons, List.all_nil, Bool.and_true, List.length_cons,
        List.length_nil, digitsVal_one, digitsVal_two, Bool.and_eq_true, decide_eq_true_eq,
        char_le_toNat, char_isDigit_toNat, e0, e1, e9]
      split_ifs <;>
        first
          | rfl
          | omega
          | (simp only [digitsVal_one, digitsVal_two, Option.some.injEq]; omega)
    · by_cases ha1 : a = '1'
      · subst ha1
        simp only [monthVal, List.all_cons, List.all_nil, Bool.and_true, List.length_cons,
          List.length_nil, digitsVal_one, digitsVal_two, Bool.and_eq_true, decide_eq_true_eq,
          char_le_toNat, char_isDigit_toNat, e0, e1, e2, e9]
        split_ifs <;>
          first
            | rfl
            | omega
            | (simp only [digitsVal_one, digitsVal_two, Option.some.injEq]; omega)
      · have hv : monthVal [a, b] = none := by
          rw [monthVal.eq_def]
          split
          · rename_i heq; simp at heq
          · rename_i heq
            rw [List.cons.injEq] at heq
            exact absurd heq.1 ha0
          · rename_i heq
            rw [List.cons.injEq] at heq
            exact absurd heq.1 ha1
          · rfl
        rw [hv, if_neg]
        rintro ⟨hdig, -, -, h1, h12⟩
        rw [List.all_cons, List.all_cons, List.all_nil, Bool.and_true, Bool.and_eq_true] at hdig
        have hna := (char_isDigit_toNat a).mp hdig.1
        have hnb := (char_isDigit_toNat b).mp hdig.2
        have ha0n := (char_eq_toNat a '0').not.mp ha0
        have ha1n := (char_eq_toNat a '1').not.mp ha1
        rw [digitsVal_two] at h1 h12
        rw [e0] at ha0n
        rw [e1] at ha1n
        omega
  | a :: b :: c :: t =>
    have hv : monthVal (a :: b :: c :: t) = none := by
      rw [monthVal.eq_def]
      split <;> first | rfl | (rename_i heq; simp at heq)
    rw [hv, if_neg]
    rintro ⟨-, -, hlen, -, -⟩
    simp at hlen

/-- The day group accepts exactly the one- or two-digit strings whose value
is between 1 and 31. -/
theorem dayVal_eq (d : List Char) :
    dayVal d =
      if d.all Char.isDigit ∧ 1 ≤ d.length ∧ d.length ≤ 2 ∧
          1 ≤ digitsVal d ∧ digitsVal d ≤ 31 then
        some (digitsVal d)
      else none := by
  have e0 : ('0' : Char).toNat = 48 := by decide
  have e1 : ('1' : Char).toNat = 49 := by decide
  have e2 : ('2' : Char).toNat = 50 := by decide
  have e3 : ('3' : Char).toNat = 51 := by decide
  have e9 : ('9' : Char).toNat = 57 := by decide
  match d with
  | [] => simp [dayVal]
  | [c] =>
    simp only [dayVal, List.all_cons, List.all_nil, Bool.and_true, List.length_cons,
      List.length_nil, digitsVal_one, Bool.and_eq_true, decide_eq_true_eq,
      char_le_toNat, char_isDigit_toNat, e1, e9]
    split_ifs <;> first | rfl | omega
  | [a, b] =>
    by_cases ha0 : a = '0'
    · subst ha0
      simp only [dayVal, List.all_cons, List.all_nil, Bool.and_true, List.length_cons,
        List.length_nil, digitsVal_one, digitsVal_two, Bool.and_eq_true, decide_eq_true_eq,
        char_le_toNat, char_isDigit_toNat, e0, e1, e9]
      split_ifs <;>
        first
          | rfl
          | omega
          | (simp only [digitsVal_one, digitsVal_two, Option.some.injEq]; omega)
    · by_cases ha1 : a = '1'
      · subst ha1
        simp only [dayVal, List.all_cons, List.all_nil, Bool.and_true, List.length_cons,
          List.length_nil, digitsVal_one, digitsVal_two, Bool.and_eq_true, decide_eq_true_eq,
          char_le_toNat, char_isDigit_toNat, e0, e1, e2, e9]
        split_ifs <;>
          first
            | rfl
            | omega
            | (simp only [digitsVal_one, digitsVal_two, Option.some.injEq]; omega)
      · by_cases ha2 : a = '2'
        · subst ha2
          simp only [dayVal, List.all_cons, List.all_nil, Bool.and_true, List.length_cons,
            List.length_nil, digitsVal_one, digitsVal_two, Bool.and_eq_true, decide_eq_true_eq,
            char_le_toNat, char_isDigit_toNat, e0, e1, e2, e9]
          split_ifs <;>
            first
              | rfl
              | omega
              | (simp only [digitsVal_one, digitsVal_two, Option.some.injEq]; omega)
        · by_cases ha3 : a = '3'
          · subst ha3
            simp only [dayVal, List.all_cons, List.all_nil, Bool.and_true, List.length_cons,
              List.length_nil, digitsVal_one, digitsVal_two, Bool.and_eq_true,
              decide_eq_true_eq, Bool.or_eq_true, char_eq_toNat,
              char_le_toNat, char_isDigit_toNat, e0, e1, e3, e9]
            split_ifs <;>
              first
                | rfl
                | omega
                | (simp only [digitsVal_one, digitsVal_two, Option.some.injEq]; omega)
          · have hv : dayVal [a, b] = none := by
              rw [dayVal.eq_def]
              split
              · rename_i heq; simp at heq
              · rename_i heq
                rw [List.cons.injEq] at heq
                exact absurd heq.1 ha0
              · rename_i heq
                rw [List.cons.injEq] at heq
                exact absurd heq.1 ha1
              · rename_i heq
                rw [List.cons.injEq] at heq
                exact absurd heq.1 ha2
              · rename_i heq
                rw [List.cons.injEq] at heq
                exact absurd heq.1 ha3
              · rfl
            rw [hv, if_neg]
            rintro ⟨hdig, -, -, h1, h31⟩
            rw [List.all_cons, List.all_cons, List.all_nil, Bool.and_true,
              Bool.and_eq_true] at hdig
            have hna := (char_isDigit_toNat a).mp hdig.1
            have hnb := (char_isDigit_toNat b).mp hdig.2
            have ha0n := (char_eq_toNat a '0').not.mp ha0
            have ha1n := (char_eq_toNat a '1').not.mp ha1
            have ha2n := (char_eq_toNat a '2').not.mp ha2
            have ha3n := (char_eq_toNat a '3').not.mp ha3
            rw [digitsVal_two] at h1 h31
            rw [e0] at ha0n
            rw [e1] at ha1n
            rw [e2] at ha2n
            rw [e3] at ha3n
            omega
  | a :: b :: c :: t =>
    have hv : dayVal (a :: b :: c :: t) = none := by
      rw [dayVal.eq_def]
      split <;> first | rfl | (rename_i heq; simp at heq)
    rw [hv, if_neg]
    rintro ⟨-, -, hlen, -, -⟩
    simp at hlen

theorem dayVal_three (a b c : Char) (t : List Char) : dayVal (a :: b :: c :: t) = none := by
  rw [dayVal.eq_def]
  split <;> first | rfl | (rename_i heq; simp at heq)

theorem dayVal_newline_snd (c : Char) : dayVal [c, '\n'] = none := by
  rw [dayVal_eq, if_neg]
  rintro ⟨hall, -⟩
  simp only [List.all_cons, List.all_nil, Bool.and_true, Bool.and_eq_true] at hall
  exact absurd hall.2 (by decide)

/-- After the dash, the embedded matcher accepts exactly a day form followed
by nothing or one newline. -/
theorem dayDollar_eq_strip (rest : List Char) :
    dayDollar rest =
      dayVal (if rest.getLast? = some '\n' then rest.dropLast else rest) := by
  match rest with
  | [] => rfl
  | [c] =>
    by_cases hc : c = '\n'
    · subst hc
      rfl
    · rw [if_neg (by simp [List.getLast?, hc])]
      simp only [dayDollar, List.take, List.drop, List.length_cons, List.length_nil]
      norm_num
      rcases dayVal [c] with - | dv
      · rfl
      · simp [dollarEnd]
  | [c1, c2] =>
    by_cases h2 : (dayVal [c1, c2]).isSome
    · have hc2 : ¬ c2 = '\n' := by
        rintro rfl
        rw [dayVal_newline_snd] at h2
        exact absurd h2 (by simp)
      rw [if_neg (by simp [List.getLast?, hc2])]
      obtain ⟨dv, hdd⟩ := Option.isSome_iff_exists.mp h2
      simp only [dayDollar, List.take, List.drop, List.length_cons, List.length_nil, hdd]
      norm_num [dollarEnd]
      rw [hdd]
    · rw [Option.not_isSome_iff_eq_none] at h2
      simp only [dayDollar, List.take, List.drop, List.length_cons, List.length_nil, h2]
      norm_num
      by_cases hc2 : c2 = '\n'
      · subst hc2
        rw [if_pos (by simp [List.getLast?])]
        show _ = dayVal [c1]
        rcases dayVal [c1] with - | dv
        · rfl
        · simp [dollarEnd]
      · rw [if_neg (by simp [List.getLast?, hc2]), h2]
        rcases dayVal [c1] with - | dv
        · rfl
        · simp [dollarEnd, hc2]
  | [c1, c2, c3] =>
    by_cases hc3 : c3 = '\n'
    · subst hc3
      rw [if_pos (by simp [List.getLast?])]
      rw [show [c1, c2, '\n'].dropLast = [c1, c2] from rfl]
      rcases hdd : dayVal [c1, c2] with - | dv
      · simp only [dayDollar, List.take, List.drop, List.length_cons, List.length_nil, hdd]
        norm_num [dollarEnd]
        rcases dayVal [c1] with - | dv
        · rfl
        · simp [dollarEnd]
      · simp only [dayDollar, List.take, List.drop, List.length_cons, List.length_nil, hdd]
        norm_num [dollarEnd]
        rw [hdd]
    · rw [if_neg (by simp [List.getLast?, hc3])]
      rw [dayVal_three]
      simp only [dayDollar, List.take, List.drop, List.length_cons, List.length_nil]
      rw [show dollarEnd [c3] = false from by simp [dollarEnd, hc3]]
      norm_num
      rcases dayVal [c1] with - | dv
      · rfl
      · simp [dollarEnd, hc3]
  | c1 :: c2 :: c3 :: t0 :: t1 =>
    have hlhs : dayDollar (c1 :: c2 :: c3 :: t0 :: t1) = none := by
      simp only [dayDollar, List.take, List.drop, List.length_cons]
      rw [show dollarEnd (c3 :: t0 :: t1) = false from by simp [dollarEnd]]
      norm_num
      rcases dayVal [c1] with - | dv
      · rfl
      · simp [dollarEnd]
    rw [hlhs]
    have h3 : 3 ≤ (if (c1 :: c2 :: c3 :: t0 :: t1).getLast? = some '\n' then
        (c1 :: c2 :: c3 :: t0 :: t1).dropLast else c1 :: c2 :: c3 :: t0 :: t1).length := by
      split
      · rw [List.length_dropLast]
        simp only [List.length_cons]
        omega
      · simp only [List.length_cons]
        omega
    rcases hd : (if (c1 :: c2 :: c3 :: t0 :: t1).getLast? = some '\n' then
        (c1 :: c2 :: c3 :: t0 :: t1).dropLast else c1 :: c2 :: c3 :: t0 :: t1) with
      - | ⟨a, - | ⟨b, - | ⟨c, t⟩⟩⟩
    · rw [hd] at h3; simp at h3
    · rw [hd] at h3; simp at h3
    · rw [hd] at h3; simp at h3
    · rw [dayVal_three]

theorem normalize_eq_claimNL (s : String) :
    normalize_bid_date s = claimNormalizeNL s := by
  unfold normalize_bid_date claimNormalizeNL
  rcases hsp : splitFirstDash s.toList with - | ⟨m, rest⟩
  · rfl
  · simp only
    rw [monthVal_eq, dayDollar_eq_strip, dayVal_eq]
    set d := (if rest.getLast? = some '\n' then rest.dropLast else rest) with hdset
    by_cases hm : m.all Char.isDigit ∧ 1 ≤ m.length ∧ m.length ≤ 2 ∧
        1 ≤ digitsVal m ∧ digitsVal m ≤ 12
    · rw [if_pos hm]
      by_cases hdc : d.all Char.isDigit ∧ 1 ≤ d.length ∧ d.length ≤ 2 ∧
          1 ≤ digitsVal d ∧ digitsVal d ≤ 31
      · rw [if_pos hdc, if_pos (And.intro hm hdc)]
      · rw [if_neg hdc, if_neg (fun hh => hdc hh.2)]
    · have hneg : ¬ ((m.all Char.isDigit ∧ 1 ≤ m.length ∧ m.length ≤ 2 ∧
          1 ≤ digitsVal m ∧ digitsVal m ≤ 12) ∧
          (d.all Char.isDigit ∧ 1 ≤ d.length ∧ d.length ≤ 2 ∧
            1 ≤ digitsVal d ∧ digitsVal d ≤ 31)) := fun hh => hm hh.1
      rw [if_neg hm, if_neg hneg]

/-! ### Worksheet and header lemmas -/

theorem writeCell_same (ws : Worksheet) (r c : Nat) (v : String) :
    (writeCell ws r c v).cells r c = some v := by
  simp [writeCell]

theorem writeCell_other (ws : Worksheet) (r c : Nat) (v : String) (r2 c2 : Nat)
    (h : ¬ (r2 = r ∧ c2 = c)) : (writeCell ws r c v).cells r2 c2 = ws.cells r2 c2 := by
  simp only [writeCell]
  rw [if_neg h]

theorem writeCell_maxRow (ws : Worksheet) (r c : Nat) (v : String) :
    (writeCell ws r c v).maxRow = max ws.maxRow r := rfl

theorem headerPairs_eq :
    headerPairs = [(1, "Bid Folder"), (2, "Bid Number"), (3, "Estimator"), (4, "Bid Due Date"),
      (5, "Customer/GC"), (6, "Bid Name"), (7, "Proposal Date"), (8, "Proposal Amount"),
      (9, "Bid Status")] := by
  rfl

/-- The final loop of `ensure_headers` maps every canonical header to its
canonical column, whatever the mapping held before. -/
theorem finalMap_canonical (m0 : HMap) :
    (headerPairs.foldl (fun m p => insertH m p.2 p.1) m0) "Bid Folder" = some 1 ∧
    (headerPairs.foldl (fun m p => insertH m p.2 p.1) m0) "Bid Number" = some 2 ∧
    (headerPairs.foldl (fun m p => insertH m p.2 p.1) m0) "Estimator" = some 3 ∧
    (headerPairs.foldl (fun m p => insertH m p.2 p.1) m0) "Bid Due Date" = some 4 ∧
    (headerPairs.foldl (fun m p => insertH m p.2 p.1) m0) "Customer/GC" = some 5 ∧
    (headerPairs.foldl (fun m p => insertH m p.2 p.1) m0) "Bid Name" = some 6 ∧
    (headerPairs.foldl (fun m p => insertH m p.2 p.1) m0) "Proposal Date" = some 7 ∧
    (headerPairs.foldl (fun m p => insertH m p.2 p.1) m0) "Proposal Amount" = some 8 ∧
    (headerPairs.foldl (fun m p => insertH m p.2 p.1) m0) "Bid Status" = some 9 := by
  rw [headerPairs_eq]
  simp only [List.foldl_cons, List.foldl_nil, insertH]
  refine ⟨?_, ?_, ?_, ?_, ?_, ?_, ?_, ?_, ?_⟩ <;> simp

/-- The mapping returned by `ensure_headers` always contains all nine
canonical headers at their canonical columns 1..9. -/
theorem ensure_headers_map (ws : Worksheet) :
    (ensure_headers ws).2 "Bid Folder" = some 1 ∧
    (ensure_headers ws).2 "Bid Number" = some 2 ∧
    (ensure_headers ws).2 "Estimator" = some 3 ∧
    (ensure_headers ws).2 "Bid Due Date" = some 4 ∧
    (ensure_headers ws).2 "Customer/GC" = some 5 ∧
    (ensure_headers ws).2 "Bid Name" = some 6 ∧
    (ensure_headers ws).2 "Proposal Date" = some 7 ∧
    (ensure_headers ws).2 "Proposal Amount" = some 8 ∧
    (ensure_headers ws).2 "Bid Status" = some 9 := by
  unfold ensure_headers
  rcases (List.range' 1 30).foldl ensureStep (ws, emptyH, false) with ⟨ws1, m, b⟩
  rcases b with - | -
  · simp only [Bool.not_false, if_true]
    exact finalMap_canonical emptyH
  · simp only [Bool.not_true, if_false]
    exact finalMap_canonical m

theorem ensureStep_none (st : Worksheet × HMap × Bool) (col : Nat)
    (h : st.1.cells 1 col = none) : ensureStep st col = st := by
  unfold ensureStep
  rw [h]

theorem ensureStep_empty (st : Worksheet × HMap × Bool) (col : Nat) (s : String)
    (h : st.1.cells 1 col = some s) (he : s.isEmpty = true) : ensureStep st col = st := by
  unfold ensureStep
  rw [h]
  simp only [if_pos he]

theorem ensureStep_truthy (st : Worksheet × HMap × Bool) (col : Nat) (s : String)
    (h : st.1.cells 1 col = some s) (he : ¬ s.isEmpty = true) :
    ensureStep st col =
      (if legacyMap s ≠ s then writeCell st.1 1 col (legacyMap s) else st.1,
        setdefaultH st.2.1 (legacyMap s) col, true) := by
  unfold ensureStep
  rw [h]
  simp only [if_neg he]

/-- Case split on what one scan step does. -/
theorem ensureStep_cases (st : Worksheet × HMap × Bool) (col : Nat) :
    ensureStep st col = st ∨
      ∃ s, st.1.cells 1 col = some s ∧ ¬ s.isEmpty = true ∧
        ensureStep st col =
          (if legacyMap s ≠ s then writeCell st.1 1 col (legacyMap s) else st.1,
            setdefaultH st.2.1 (legacyMap s) col, true) := by
  rcases hcell : st.1.cells 1 col with - | s
  · exact Or.inl (ensureStep_none st col hcell)
  · by_cases hemp : s.isEmpty = true
    · exact Or.inl (ensureStep_empty st col s hcell hemp)
    · exact Or.inr ⟨s, rfl, hemp, ensureStep_truthy st col s hcell hemp⟩

/-- The alias scan never writes outside row 1, and only at the scanned
columns. -/
theorem scan_frame (cols : List Nat) (st : Worksheet × HMap × Bool) (r c : Nat)
    (h : r ≠ 1 ∨ ¬ c ∈ cols) :
    (cols.foldl ensureStep st).1.cells r c = st.1.cells r c := by
  induction cols generalizing st with
  | nil => rfl
  | cons col0 rest ih =>
    rw [List.foldl_cons]
    rw [ih _ (by rcases h with h | h; exact Or.inl h; exact Or.inr (fun hc => h (by simp [hc])))]
    rcases ensureStep_cases st col0 with hst | ⟨s, -, -, hst⟩
    · rw [hst]
    · rw [hst]
      simp only
      split
      · rw [writeCell_other]
        rintro ⟨rfl, rfl⟩
        rcases h with h | h
        · exact h rfl
        · exact h (by simp)
      · rfl

/-- The alias scan leaves `max_row` unchanged on a worksheet with at least
one row. -/
theorem scan_maxRow (cols : List Nat) (st : Worksheet × HMap × Bool)
    (h1 : 1 ≤ st.1.maxRow) :
    (cols.foldl ensureStep st).1.maxRow = st.1.maxRow := by
  induction cols generalizing st with
  | nil => rfl
  | cons col0 rest ih =>
    rw [List.foldl_cons]
    have hstep : (ensureStep st col0).1.maxRow = st.1.maxRow := by
      rcases ensureStep_cases st col0 with hst | ⟨s, -, -, hst⟩
      · rw [hst]
      · rw [hst]
        simp only
        split
        · rw [writeCell_maxRow]
          omega
        · rfl
    rw [ih _ (by rw [hstep]; exact h1), hstep]

/-- A true `has_any` flag survives the rest of the scan. -/
theorem scan_hasAny_mono (cols : List Nat) (ws : Worksheet) (m : HMap) :
    (cols.foldl ensureStep (ws, m, true)).2.2 = true := by
  induction cols generalizing ws m with
  | nil => rfl
  | cons col0 rest ih =>
    rw [List.foldl_cons]
    rcases ensureStep_cases (ws, m, true) col0 with hst | ⟨s, -, -, hst⟩
    · rw [hst]
      exact ih ws m
    · rw [hst]
      split
      · exact ih _ _
      · exact ih _ _

/-- When the scan ends with `has_any = false` it has made no change at all. -/
theorem scan_of_not_hasAny (cols : List Nat) (ws : Worksheet) (m : HMap)
    (h : (cols.foldl ensureStep (ws, m, false)).2.2 = false) :
    cols.foldl ensureStep (ws, m, false) = (ws, m, false) := by
  induction cols generalizing ws m with
  | nil => rfl
  | cons col0 rest ih =>
    rw [List.foldl_cons] at h ⊢
    rcases ensureStep_cases (ws, m, false) col0 with hst | ⟨s, -, -, hst⟩
    · rw [hst] at h ⊢
      exact ih ws m h
    · exfalso
      rw [hst] at h
      revert h
      split
      · rw [scan_hasAny_mono]
        intro h
        exact Bool.noConfusion h
      · rw [scan_hasAny_mono]
        intro h
        exact Bool.noConfusion h

/-- Writing the canonical header row: the nine canonical cells. -/
theorem headerWrite_cells (w : Worksheet) :
    ((headerPairs.foldl (fun w p => writeCell w 1 p.1 p.2) w).cells 1 1 = some "Bid Folder" ∧
     (headerPairs.foldl (fun w p => writeCell w 1 p.1 p.2) w).cells 1 2 = some "Bid Number" ∧
     (headerPairs.foldl (fun w p => writeCell w 1 p.1 p.2) w).cells 1 3 = some "Estimator" ∧
     (headerPairs.foldl (fun w p => writeCell w 1 p.1 p.2) w).cells 1 4 = some "Bid Due Date" ∧
     (headerPairs.foldl (fun w p => writeCell w 1 p.1 p.2) w).cells 1 5 = some "Customer/GC" ∧
     (headerPairs.foldl (fun w p => writeCell w 1 p.1 p.2) w).cells 1 6 = some "Bid Name" ∧
     (headerPairs.foldl (fun w p => writeCell w 1 p.1 p.2) w).cells 1 7 = some "Proposal Date" ∧
     (headerPairs.foldl (fun w p => writeCell w 1 p.1 p.2) w).cells 1 8 = some "Proposal Amount" ∧
     (headerPairs.foldl (fun w p => writeCell w 1 p.1 p.2) w).cells 1 9 = some "Bid Status") := by
  rw [headerPairs_eq]
  simp only [List.foldl_cons, List.foldl_nil, writeCell]
  refine ⟨?_, ?_, ?_, ?_, ?_, ?_, ?_, ?_, ?_⟩ <;> simp

/-- Writing the canonical header row touches only row 1, columns 1..9. -/
theorem headerWrite_frame (w : Worksheet) (r c : Nat) (h : r ≠ 1 ∨ c < 1 ∨ 9 < c) :
    (headerPairs.foldl (fun w p => writeCell w 1 p.1 p.2) w).cells r c = w.cells r c := by
  rw [headerPairs_eq]
  simp only [List.foldl_cons, List.foldl_nil, writeCell]
  iterate 9 rw [if_neg (by omega)]

theorem headerWrite_maxRow (w : Worksheet) :
    (headerPairs.foldl (fun w p => writeCell w 1 p.1 p.2) w).maxRow = max w.maxRow 1 := by
  rw [headerPairs_eq]
  simp only [List.foldl_cons, List.foldl_nil, writeCell_maxRow]
  omega

/-- After `ensure_headers`, row 1 columns 1..9 hold the canonical labels. -/
theorem ensure_headers_row1 (ws : Worksheet) :
    (ensure_headers ws).1.cells 1 1 = some "Bid Folder" ∧
    (ensure_headers ws).1.cells 1 2 = some "Bid Number" ∧
    (ensure_headers ws).1.cells 1 3 = some "Estimator" ∧
    (ensure_headers ws).1.cells 1 4 = some "Bid Due Date" ∧
    (ensure_headers ws).1.cells 1 5 = some "Customer/GC" ∧
    (ensure_headers ws).1.cells 1 6 = some "Bid Name" ∧
    (ensure_headers ws).1.cells 1 7 = some "Proposal Date" ∧
    (ensure_headers ws).1.cells 1 8 = some "Proposal Amount" ∧
    (ensure_headers ws).1.cells 1 9 = some "Bid Status" := by
  unfold ensure_headers
  rcases hscan : (List.range' 1 30).foldl ensureStep (ws, emptyH, false) with ⟨ws1, m, b⟩
  rcases b with - | -
  · simp only [Bool.not_false, if_true]
    exact headerWrite_cells ws1
  · simp only [Bool.not_true, if_false]
    by_cases hre : headerPairs.any (fun p => ws1.cells 1 p.1 ≠ some p.2) = true
    · rw [if_pos hre]
      exact headerWrite_cells ws1
    · rw [if_neg hre]
      have hall : ∀ p ∈ headerPairs, ws1.cells 1 p.1 = some p.2 := by
        intro p hp
        by_contra hne
        exact hre (List.any_eq_true.mpr ⟨p, hp, by simpa using hne⟩)
      rw [headerPairs_eq] at hall
      exact ⟨hall (1, "Bid Folder") (by simp), hall (2, "Bid Number") (by simp),
        hall (3, "Estimator") (by simp), hall (4, "Bid Due Date") (by simp),
        hall (5, "Customer/GC") (by simp), hall (6, "Bid Name") (by simp),
        hall (7, "Proposal Date") (by simp), hall (8, "Proposal Amount") (by simp),
        hall (9, "Bid Status") (by simp)⟩

/-- `ensure_headers` never touches a cell outside row 1. -/
theorem ensure_headers_frame (ws : Worksheet) (r c : Nat) (h : r ≠ 1) :
    (ensure_headers ws).1.cells r c = ws.cells r c := by
  unfold ensure_headers
  have hsc := scan_frame (List.range' 1 30) (ws, emptyH, false) r c (Or.inl h)
  rcases hscan : (List.range' 1 30).foldl ensureStep (ws, emptyH, false) with ⟨ws1, m, b⟩
  rw [hscan] at hsc
  dsimp only at hsc
  rcases b with - | -
  · simp only [Bool.not_false, if_true]
    exact (headerWrite_frame ws1 r c (Or.inl h)).trans hsc
  · simp only [Bool.not_true, if_false]
    by_cases hre : (headerPairs.any fun p => ws1.cells 1 p.1 ≠ some p.2) = true
    · rw [if_pos hre]
      exact (headerWrite_frame ws1 r c (Or.inl h)).trans hsc
    · rw [if_neg hre]
      exact hsc

/-- `ensure_headers` never touches row 1 past column 30. -/
theorem ensure_headers_beyond30 (ws : Worksheet) (c : Nat) (h : 30 < c) :
    (ensure_headers ws).1.cells 1 c = ws.cells 1 c := by
  unfold ensure_headers
  have hsc := scan_frame (List.range' 1 30) (ws, emptyH, false) 1 c
    (Or.inr (by rw [List.mem_range'_1]; omega))
  rcases hscan : (List.range' 1 30).foldl ensureStep (ws, emptyH, false) with ⟨ws1, m, b⟩
  rw [hscan] at hsc
  dsimp only at hsc
  rcases b with - | -
  · simp only [Bool.not_false, if_true]
    exact (headerWrite_frame ws1 1 c (by omega)).trans hsc
  · simp only [Bool.not_true, if_false]
    by_cases hre : (headerPairs.any fun p => ws1.cells 1 p.1 ≠ some p.2) = true
    · rw [if_pos hre]
      exact (headerWrite_frame ws1 1 c (by omega)).trans hsc
    · rw [if_neg hre]
      exact hsc

/-- `ensure_headers` keeps `max_row` on a worksheet with at least one row. -/
theorem ensure_headers_maxRow (ws : Worksheet) (h1 : 1 ≤ ws.maxRow) :
    (ensure_headers ws).1.maxRow = ws.maxRow := by
  unfold ensure_headers
  have hsc := scan_maxRow (List.range' 1 30) (ws, emptyH, false) h1
  rcases hscan : (List.range' 1 30).foldl ensureStep (ws, emptyH, false) with ⟨ws1, m, b⟩
  rw [hscan] at hsc
  dsimp only at hsc
  rcases b with - | -
  · simp only [Bool.not_false, if_true]
    refine (headerWrite_maxRow ws1).trans ?_
    rw [hsc]
    omega
  · simp only [Bool.not_true, if_false]
    by_cases hre : (headerPairs.any fun p => ws1.cells 1 p.1 ≠ some p.2) = true
    · rw [if_pos hre]
      refine (headerWrite_maxRow ws1).trans ?_
      rw [hsc]
      omega
    · rw [if_neg hre]
      exact hsc

/-- During the scan, a truthy cell at a scanned column ends as its
alias-resolved label. -/
theorem scan_cell (cols : List Nat) (hnd : cols.Nodup) (st : Worksheet × HMap × Bool)
    (col : Nat) (hc : col ∈ cols) (s : String) (hcell : st.1.cells 1 col = some s)
    (hne : ¬ s.isEmpty = true) :
    (cols.foldl ensureStep st).1.cells 1 col = some (legacyMap s) := by
  induction cols generalizing st with
  | nil => exact absurd hc (List.not_mem_nil col)
  | cons col0 rest ih =>
    rw [List.foldl_cons]
    rcases List.nodup_cons.mp hnd with ⟨hnotin, hndr⟩
    rcases List.mem_cons.mp hc with rfl | hcr
    · rw [scan_frame rest _ 1 col (Or.inr hnotin)]
      rw [ensureStep_truthy st col s hcell hne]
      simp only
      split
      · exact writeCell_same st.1 1 col (legacyMap s)
      · rename_i hle
        rw [hcell]
        simp only [Option.some.injEq]
        by_contra hx
        exact hle (fun hy => hx (by rw [hy]))
    · have hcol0 : col ≠ col0 := fun hx => hnotin (hx ▸ hcr)
      have hcell2 : (ensureStep st col0).1.cells 1 col = some s := by
        rcases ensureStep_cases st col0 with hst | ⟨s2, -, -, hst⟩
        · rw [hst]
          exact hcell
        · rw [hst]
          simp only
          split
          · rw [writeCell_other _ _ _ _ _ _ (by rintro ⟨-, rfl⟩; exact hcol0 rfl)]
            exact hcell
          · exact hcell
      exact ih hndr _ hcr hcell2

/-- A legacy label anywhere in row 1 columns 10..30 is rewritten in place to
its canonical label (columns 1..9 are instead governed by the reorder). -/
theorem ensure_headers_alias (ws : Worksheet) (col : Nat) (s : String)
    (h10 : 10 ≤ col) (h30 : col ≤ 30) (hcell : ws.cells 1 col = some s)
    (hne : ¬ s.isEmpty = true) :
    (ensure_headers ws).1.cells 1 col = some (legacyMap s) := by
  unfold ensure_headers
  have hsc := scan_cell (List.range' 1 30) (List.nodup_range' 1 30) (ws, emptyH, false) col
    (by rw [List.mem_range'_1]; omega) s hcell hne
  rcases hscan : (List.range' 1 30).foldl ensureStep (ws, emptyH, false) with ⟨ws1, m, b⟩
  rw [hscan] at hsc
  dsimp only at hsc
  rcases b with - | -
  · simp only [Bool.not_false, if_true]
    exact (headerWrite_frame ws1 1 col (by omega)).trans hsc
  · simp only [Bool.not_true, if_false]
    by_cases hre : (headerPairs.any fun p => ws1.cells 1 p.1 ≠ some p.2) = true
    · rw [if_pos hre]
      exact (headerWrite_frame ws1 1 col (by omega)).trans hsc
    · rw [if_neg hre]
      exact hsc

theorem setdefaultH_other (m : HMap) (k k2 : String) (v : Nat) (h : k2 ≠ k) :
    (setdefaultH m k v) k2 = m k2 := by
  unfold setdefaultH insertH
  split
  · rfl
  · simp only
    rw [if_neg h]

theorem legacyMap_fix (s : String) (h1 : ¬ s = "Folder Name") (h2 : ¬ s = "Bid#")
    (h3 : ¬ s = "GC/Owner") (h4 : ¬ s = "Description") (h5 : ¬ s = "Due Date")
    (h6 : ¬ s = "Status") : legacyMap s = s := by
  unfold legacyMap
  rw [if_neg h1, if_neg h2, if_neg h3, if_neg h4, if_neg h5, if_neg h6]

theorem legacyMap_idem (s : String) : legacyMap (legacyMap s) = legacyMap s := by
  by_cases h1 : s = "Folder Name"
  · subst h1
    rfl
  by_cases h2 : s = "Bid#"
  · subst h2
    rfl
  by_cases h3 : s = "GC/Owner"
  · subst h3
    rfl
  by_cases h4 : s = "Description"
  · subst h4
    rfl
  by_cases h5 : s = "Due Date"
  · subst h5
    rfl
  by_cases h6 : s = "Status"
  · subst h6
    rfl
  rw [legacyMap_fix s h1 h2 h3 h4 h5 h6]
  exact legacyMap_fix s h1 h2 h3 h4 h5 h6

/-- The scan adds no key whose source label is absent from row 1. -/
theorem scan_map_absent (cols : List Nat) (st : Worksheet × HMap × Bool) (k : String)
    (hm : st.2.1 k = none)
    (hno : ∀ col ∈ cols, ∀ s, st.1.cells 1 col = some s → ¬ s.isEmpty = true →
      legacyMap s ≠ k) :
    (cols.foldl ensureStep st).2.1 k = none := by
  induction cols generalizing st with
  | nil => exact hm
  | cons col0 rest ih =>
    rw [List.foldl_cons]
    rcases ensureStep_cases st col0 with hst | ⟨s, hcell, hne, hst⟩
    · rw [hst]
      exact ih st hm (fun col hcol => hno col (List.mem_cons_of_mem col0 hcol))
    · rw [hst]
      have hk : legacyMap s ≠ k := hno col0 (List.mem_cons_self col0 rest) s hcell hne
      refine ih _ ?_ ?_
      · simp only
        rw [setdefaultH_other _ _ _ _ (fun hx => hk hx.symm)]
        exact hm
      · intro col hcol s2 hcell2 hne2
        by_cases hcc : col = col0
        · subst hcc
          revert hcell2
          simp only
          split
          · rw [writeCell_same]
            intro hcell2
            rw [Option.some.injEq] at hcell2
            subst hcell2
            rw [legacyMap_idem]
            exact hk
          · rename_i hle
            intro hcell2
            rw [hcell] at hcell2
            rw [Option.some.injEq] at hcell2
            subst hcell2
            exact hk
        · revert hcell2
          simp only
          split
          · intro hcell2
            rw [writeCell_other _ _ _ _ _ _ (by rintro ⟨-, rfl⟩; exact hcc rfl)] at hcell2
            exact hno col (List.mem_cons_of_mem col0 hcol) s2 hcell2 hne2
          · intro hcell2
            exact hno col (List.mem_cons_of_mem col0 hcol) s2 hcell2 hne2

/-- The final loop does not create an "Award" entry. -/
theorem finalMap_award (m0 : HMap) :
    (headerPairs.foldl (fun m p => insertH m p.2 p.1) m0) "Award" = m0 "Award" := by
  rw [headerPairs_eq]
  simp only [List.foldl_cons, List.foldl_nil, insertH]
  simp

/-- If no truthy cell of row 1 columns 1..30 reads "Award", the mapping
returned by `ensure_headers` has no "Award" entry. -/
theorem ensure_headers_award (ws : Worksheet)
    (hno : ∀ col, 1 ≤ col → col ≤ 30 → ws.cells 1 col ≠ some "Award") :
    (ensure_headers ws).2 "Award" = none := by
  have hleg : ∀ s : String, legacyMap s = "Award" → s = "Award" := by
    intro s
    unfold legacyMap
    split_ifs <;> intro h <;> first | (exact absurd h (by decide)) | exact h
  have hscm : ((List.range' 1 30).foldl ensureStep (ws, emptyH, false)).2.1 "Award" = none := by
    refine scan_map_absent _ _ _ rfl ?_
    intro col hcol s hcell hne hlm
    rw [List.mem_range'_1] at hcol
    exact hno col (by omega) (by omega) (by rw [hcell, hleg s hlm])
  unfold ensure_headers
  rcases hscan : (List.range' 1 30).foldl ensureStep (ws, emptyH, false) with ⟨ws1, m, b⟩
  rw [hscan] at hscm
  dsimp only at hscm
  rcases b with - | -
  · simp only [Bool.not_false, if_true]
    exact finalMap_award emptyH
  · simp only [Bool.not_true, if_false]
    exact (finalMap_award m).trans hscm

/-- A scan over columns whose row-1 cells are all missing or empty does
nothing. -/
theorem scan_skip (cols : List Nat) (st : Worksheet × HMap × Bool)
    (h : ∀ col ∈ cols, ∀ s, st.1.cells 1 col = some s → s.isEmpty = true) :
    cols.foldl ensureStep st = st := by
  induction cols generalizing st with
  | nil => rfl
  | cons col0 rest ih =>
    rw [List.foldl_cons]
    have hstep : ensureStep st col0 = st := by
      rcases hcell : st.1.cells 1 col0 with - | s
      · exact ensureStep_none st col0 hcell
      · exact ensureStep_empty st col0 s hcell
          (h col0 (List.mem_cons_self col0 rest) s hcell)
    rw [hstep]
    exact ih st (fun col hcol => h col (List.mem_cons_of_mem col0 hcol))

/-- On a worksheet whose header row is empty, `ensure_headers` writes the
canonical header row from scratch. -/
theorem ensure_headers_of_empty (ws : Worksheet)
    (h : ∀ col ∈ List.range' 1 30, ∀ s, ws.cells 1 col = some s → s.isEmpty = true) :
    ensure_headers ws =
      (headerPairs.foldl (fun w p => writeCell w 1 p.1 p.2) ws,
       headerPairs.foldl (fun m p => insertH m p.2 p.1) emptyH) := by
  unfold ensure_headers
  rw [scan_skip (List.range' 1 30) (ws, emptyH, false) h]
  rfl

/-- A scan over columns whose truthy row-1 cells are all already
alias-resolved leaves the worksheet component untouched. -/
theorem scan_noWrite (cols : List Nat) (st : Worksheet × HMap × Bool)
    (h : ∀ col ∈ cols, ∀ s, st.1.cells 1 col = some s → ¬ s.isEmpty = true →
      legacyMap s = s) :
    (cols.foldl ensureStep st).1 = st.1 := by
  induction cols generalizing st with
  | nil => rfl
  | cons col0 rest ih =>
    rw [List.foldl_cons]
    rcases ensureStep_cases st col0 with hst | ⟨s, hcell, hne, hst⟩
    · rw [hst]
      exact ih st (fun col hcol => h col (List.mem_cons_of_mem col0 hcol))
    · rw [hst]
      have hfix : legacyMap s = s := h col0 (List.mem_cons_self col0 rest) s hcell hne
      rw [if_neg (fun hx => hx hfix)]
      exact ih _ (fun col hcol => h col (List.mem_cons_of_mem col0 hcol))

/-- If some scanned column has a truthy cell, the scan ends with
`has_any = true`. -/
theorem scan_hasAny_true (cols : List Nat) (hnd : cols.Nodup) (st : Worksheet × HMap × Bool)
    (col : Nat) (hc : col ∈ cols) (s : String) (hcell : st.1.cells 1 col = some s)
    (hne : ¬ s.isEmpty = true) :
    (cols.foldl ensureStep st).2.2 = true := by
  induction cols generalizing st with
  | nil => exact absurd hc (List.not_mem_nil col)
  | cons col0 rest ih =>
    rw [List.foldl_cons]
    rcases List.nodup_cons.mp hnd with ⟨hnotin, hndr⟩
    rcases List.mem_cons.mp hc with rfl | hcr
    · rw [ensureStep_truthy st col s hcell hne]
      exact scan_hasAny_mono rest _ _
    · rcases ensureStep_cases st col0 with hst | ⟨s2, -, -, hst⟩
      · rw [hst]
        exact ih hndr st hcr hcell
      · rw [hst]
        split
        · exact scan_hasAny_mono rest _ _
        · exact scan_hasAny_mono rest _ _

/-- When row 1 already carries the canonical labels in columns 1..9 and no
remaining legacy alias anywhere in columns 1..30, `ensure_headers` leaves
the worksheet untouched. -/
theorem ensure_headers_noop (ws : Worksheet)
    (hfix : ∀ col ∈ List.range' 1 30, ∀ s, ws.cells 1 col = some s → ¬ s.isEmpty = true →
      legacyMap s = s)
    (hcan : ∀ p ∈ headerPairs, ws.cells 1 p.1 = some p.2) :
    (ensure_headers ws).1 = ws := by
  have hcell1 : ws.cells 1 1 = some "Bid Folder" := by
    have := hcan (1, "Bid Folder") (by rw [headerPairs_eq]; simp)
    exact this
  have hb := scan_hasAny_true (List.range' 1 30) (List.nodup_range' 1 30) (ws, emptyH, false)
    1 (by rw [List.mem_range'_1]; omega) "Bid Folder" hcell1 (by decide)
  have hws := scan_noWrite (List.range' 1 30) (ws, emptyH, false) hfix
  unfold ensure_headers
  rcases hscan : (List.range' 1 30).foldl ensureStep (ws, emptyH, false) with ⟨ws1, m, b⟩
  rw [hscan] at hb hws
  dsimp only at hb hws
  subst hb
  simp only [Bool.not_true, if_false]
  have hre : ¬ (headerPairs.any fun p => ws1.cells 1 p.1 ≠ some p.2) = true := by
    intro hx
    rcases List.any_eq_true.mp hx with ⟨p, hp, hne⟩
    rw [hws, hcan p hp] at hne
    simp at hne
  rw [if_neg hre]
  exact hws

/-! ### Splitting on the separator pattern -/

theorem ws_ne_dash (c : Char) (h : isWS c = true) : (c = '-') = False := by
  simp only [eq_iff_iff, iff_false]
  rintro rfl
  exact absurd h (by decide)

theorem splitWS_cons3 (f : Nat) (a b c : Char) (t acc : List Char) :
    splitWS (f + 1) acc (a :: b :: c :: t) =
      if isSepWindow a b c then acc.reverse :: splitWS f [] t
      else splitWS (f + 1) (a :: acc) (b :: c :: t) := by
  rw [splitWS.eq_def]

theorem splitWS_zero (acc rest : List Char) :
    splitWS 0 acc rest = [acc.reverse ++ rest] := by
  cases rest with
  | nil =>
    rw [splitWS.eq_def]
    simp
  | cons a t => rw [splitWS.eq_def]

/-- Scanning a part free of separator occurrences, a separator made of any
two whitespace characters around a dash is the leftmost match, and the scan
splits exactly there. -/
theorem splitWS_step (f : Nat) (g : List Char) (hnm : containsWDW g = false)
    (hend : endsWD g = false) (acc rest : List Char) (w1 w2 : Char)
    (hw1 : isWS w1 = true) (hw2 : isWS w2 = true) :
    splitWS (f + 1) acc (g ++ w1 :: '-' :: w2 :: rest) =
      (acc.reverse ++ g) :: splitWS f [] rest := by
  induction g generalizing acc with
  | nil =>
    rw [List.nil_append, splitWS_cons3]
    rw [if_pos (by simp [isSepWindow, hw1, hw2])]
    rw [List.append_nil]
  | cons x g2 ih =>
    match g2 with
    | [] =>
      rw [List.cons_append, List.nil_append, splitWS_cons3]
      rw [if_neg (by simp [isSepWindow, ws_ne_dash w1 hw1])]
      rw [show splitWS (f + 1) (x :: acc) (w1 :: '-' :: w2 :: rest) =
          splitWS (f + 1) (x :: acc) (([] : List Char) ++ w1 :: '-' :: w2 :: rest) from rfl]
      rw [ih (by rfl) (by rfl) (x :: acc)]
      simp
    | [y] =>
      rw [show (x :: [y]) ++ w1 :: '-' :: w2 :: rest =
          x :: y :: w1 :: '-' :: w2 :: rest from by simp]
      rw [splitWS_cons3]
      have hxy : isSepWindow x y w1 = false := by
        have hh : (isWS x && (y = '-' : Bool)) = false := by
          have := hend
          simp only [endsWD] at this
          exact this
        simp only [isSepWindow, Bool.and_eq_false_iff] at hh ⊢
        rcases hh with h | h
        · exact Or.inl (Or.inl h)
        · exact Or.inl (Or.inr h)
      rw [if_neg (by rw [hxy]; exact Bool.false_ne_true)]
      rw [show (y :: w1 :: '-' :: w2 :: rest) = ([y] ++ w1 :: '-' :: w2 :: rest) from rfl]
      rw [ih (by rfl) (by rfl) (x :: acc)]
      rw [List.reverse_cons]
      simp
    | y :: z :: g4 =>
      rw [show (x :: y :: z :: g4) ++ w1 :: '-' :: w2 :: rest =
          x :: y :: z :: (g4 ++ w1 :: '-' :: w2 :: rest) from by simp]
      rw [splitWS_cons3]
      have hw : isSepWindow x y z = false := by
        revert hnm
        simp only [containsWDW, Bool.or_eq_false_iff]
        intro h
        exact h.1
      rw [if_neg (by rw [hw]; exact Bool.false_ne_true)]
      rw [show y :: z :: (g4 ++ w1 :: '-' :: w2 :: rest) =
          (y :: z :: g4) ++ w1 :: '-' :: w2 :: rest from by simp]
      rw [ih ?hc ?he (x :: acc)]
      · rw [List.reverse_cons]
        simp
      case hc =>
        revert hnm
        simp only [containsWDW, Bool.or_eq_false_iff]
        intro h
        exact h.2
      case he =>
        revert hend
        simp only [endsWD]
        exact id

/-! ### Whitespace normalization lemmas -/

theorem rdropL_append (A B : List Char) :
    rdropL (A ++ B) = if (rdropL B).isEmpty then rdropL A else A ++ rdropL B := by
  unfold rdropL ltrimL
  rw [List.reverse_append, List.dropWhile_append]
  by_cases h : (List.dropWhile (fun c => isWS c) B.reverse).isEmpty
  · rw [if_pos h, if_pos (by simpa using h)]
  · rw [if_neg h, if_neg (by simpa using h)]
    rw [List.reverse_append, List.reverse_reverse]

theorem rdropL_singleton (u : Char) :
    rdropL [u] = if isWS u then [] else [u] := by
  unfold rdropL ltrimL
  by_cases h : isWS u
  · rw [if_pos h]
    simp [List.dropWhile, h]
  · rw [if_neg h]
    simp [List.dropWhile, h]

theorem rdropL_nil : rdropL [] = [] := rfl

theorem rdropL_cons_not_ws (u : Char) (L : List Char) (h : ¬ isWS u = true) :
    rdropL (u :: L) = u :: rdropL L := by
  rw [show u :: L = [u] ++ L from rfl, rdropL_append]
  by_cases he : (rdropL L).isEmpty
  · rw [if_pos he, rdropL_singleton, if_neg h]
    rw [List.isEmpty_iff] at he
    rw [he]
  · rw [if_neg he]
    rfl

theorem rdropL_cons_of_ne (u : Char) (L : List Char) (h : ¬ (rdropL L).isEmpty = true) :
    rdropL (u :: L) = u :: rdropL L := by
  rw [show u :: L = [u] ++ L from rfl, rdropL_append, if_neg h]
  rfl

theorem rdropL_eq_nil_iff (L : List Char) :
    rdropL L = [] ↔ ∀ c ∈ L, isWS c = true := by
  unfold rdropL ltrimL
  rw [List.reverse_eq_nil_iff, List.dropWhile_eq_nil_iff]
  constructor
  · intro h c hc
    exact h c (List.mem_reverse.mpr hc)
  · intro h c hc
    exact h c (List.mem_reverse.mp hc)

/-- `rdropL` keeps a prefix of the list. -/
theorem rdropL_decomp (L : List Char) :
    ∃ t, L = rdropL L ++ t := by
  refine ⟨(L.reverse.takeWhile (fun c => isWS c)).reverse, ?_⟩
  unfold rdropL ltrimL
  rw [← List.reverse_append, List.takeWhile_append_dropWhile, List.reverse_reverse]

theorem ltrimL_cons_ws (u : Char) (L : List Char) (h : isWS u = true) :
    ltrimL (u :: L) = ltrimL L := by
  unfold ltrimL
  rw [List.dropWhile_cons_of_pos (by simpa using h)]

theorem ltrimL_cons_not_ws (u : Char) (L : List Char) (h : ¬ isWS u = true) :
    ltrimL (u :: L) = u :: L := by
  unfold ltrimL
  rw [List.dropWhile_cons_of_neg (by simpa using h)]

theorem collapseWS_cons_not_ws (b : Char) (t : List Char) (h : ¬ isWS b = true) :
    collapseWS (b :: t) = b :: collapseWS t := by
  cases t with
  | nil =>
    simp [collapseWS, normWS, h]
  | cons c t2 =>
    rw [show collapseWS (b :: c :: t2) =
        if isWS b && isWS c then collapseWS (c :: t2)
        else normWS b :: collapseWS (c :: t2) from rfl]
    rw [if_neg (by simp [h])]
    simp [normWS, h]

theorem collapseWS_cons_ws (a : Char) (t : List Char) (h : isWS a = true) :
    collapseWS (a :: t) = ' ' :: collapseWS (t.dropWhile (fun c => isWS c)) := by
  induction t with
  | nil => simp [collapseWS, normWS, h]
  | cons w t2 ih =>
    by_cases hw : isWS w = true
    · rw [show collapseWS (a :: w :: t2) =
          if isWS a && isWS w then collapseWS (w :: t2)
          else normWS a :: collapseWS (w :: t2) from rfl]
      rw [if_pos (by simp [h, hw])]
      rw [List.dropWhile_cons_of_pos (by simpa using hw)]
      rcases t2 with - | ⟨u, t3⟩
      · simp [collapseWS, normWS, hw]
      · by_cases hu : isWS u = true
        · rw [show collapseWS (w :: u :: t3) =
              if isWS w && isWS u then collapseWS (u :: t3)
              else normWS w :: collapseWS (u :: t3) from rfl]
          rw [if_pos (by simp [hw, hu])]
          have := ih
          rw [show collapseWS (a :: u :: t3) =
              if isWS a && isWS u then collapseWS (u :: t3)
              else normWS a :: collapseWS (u :: t3) from rfl] at this
          rw [if_pos (by simp [h, hu])] at this
          rw [this]
        · rw [show collapseWS (w :: u :: t3) =
              if isWS w && isWS u then collapseWS (u :: t3)
              else normWS w :: collapseWS (u :: t3) from rfl]
          rw [if_neg (by simp [hu])]
          rw [List.dropWhile_cons_of_neg (by simpa using hu)]
          simp [normWS, hw]
    · rw [show collapseWS (a :: w :: t2) =
          if isWS a && isWS w then collapseWS (w :: t2)
          else normWS a :: collapseWS (w :: t2) from rfl]
      rw [if_neg (by simp [hw])]
      rw [List.dropWhile_cons_of_neg (by simpa using hw)]
      simp [normWS, h]

/-- Collapsing across a space: the left part loses its trailing whitespace
run into the space. -/
theorem collapseWS_append_sp (x z : List Char) :
    collapseWS (x ++ ' ' :: z) = rdropL (collapseWS x) ++ collapseWS (' ' :: z) := by
  induction x with
  | nil => rfl
  | cons a x2 ih =>
    cases x2 with
    | nil =>
      rw [List.cons_append, List.nil_append]
      by_cases ha : isWS a = true
      · rw [show collapseWS (a :: ' ' :: z) =
            if isWS a && isWS ' ' then collapseWS (' ' :: z)
            else normWS a :: collapseWS (' ' :: z) from rfl]
        rw [if_pos (by simp [ha]; decide)]
        rw [show collapseWS [a] = [normWS a] from rfl]
        rw [show normWS a = ' ' from by simp [normWS, ha]]
        rw [rdropL_singleton, if_pos (by decide)]
        rw [List.nil_append]
      · rw [show collapseWS (a :: ' ' :: z) =
            if isWS a && isWS ' ' then collapseWS (' ' :: z)
            else normWS a :: collapseWS (' ' :: z) from rfl]
        rw [if_neg (by simp [ha])]
        rw [show collapseWS [a] = [normWS a] from rfl]
        rw [show normWS a = a from by simp [normWS, ha]]
        rw [rdropL_singleton, if_neg ha]
        rfl
    | cons b x3 =>
      rw [List.cons_append, List.cons_append]
      by_cases hab : (isWS a && isWS b) = true
      · rw [show collapseWS (a :: b :: (x3 ++ ' ' :: z)) =
            if isWS a && isWS b then collapseWS (b :: (x3 ++ ' ' :: z))
            else normWS a :: collapseWS (b :: (x3 ++ ' ' :: z)) from rfl]
        rw [if_pos hab]
        rw [show collapseWS (a :: b :: x3) =
            if isWS a && isWS b then collapseWS (b :: x3)
            else normWS a :: collapseWS (b :: x3) from rfl]
        rw [if_pos hab]
        rw [← List.cons_append]
        exact ih
      · rw [show collapseWS (a :: b :: (x3 ++ ' ' :: z)) =
            if isWS a && isWS b then collapseWS (b :: (x3 ++ ' ' :: z))
            else normWS a :: collapseWS (b :: (x3 ++ ' ' :: z)) from rfl]
        rw [if_neg hab]
        rw [show collapseWS (a :: b :: x3) =
            if isWS a && isWS b then collapseWS (b :: x3)
            else normWS a :: collapseWS (b :: x3) from rfl]
        rw [if_neg hab]
        rw [show (b :: (x3 ++ ' ' :: z)) = ((b :: x3) ++ ' ' :: z) from rfl]
        rw [ih]
        by_cases ha : isWS a = true
        · have hb : ¬ isWS b = true := by
            intro hb
            exact hab (by simp [ha, hb])
          have hcol : collapseWS (b :: x3) = b :: collapseWS x3 :=
            collapseWS_cons_not_ws b x3 hb
          have hne : ¬ (rdropL (collapseWS (b :: x3))).isEmpty = true := by
            rw [List.isEmpty_iff]
            rw [rdropL_eq_nil_iff]
            intro hall
            refine hb (hall b ?_)
            rw [hcol]
            exact List.mem_cons_self b (collapseWS x3)
          rw [rdropL_cons_of_ne (normWS a) _ hne]
          rfl
        · rw [rdropL_cons_not_ws (normWS a) _ (by simp [normWS, ha])]
          rfl

theorem sanitizeL_eq_tc (l : List Char) : sanitizeL l = tcL (l.map replC) := rfl

theorem rdropL_sep (C : List Char) :
    rdropL (' ' :: '-' :: C) = ' ' :: '-' :: rdropL C := by
  have h1 : rdropL ('-' :: C) = '-' :: rdropL C :=
    rdropL_cons_not_ws '-' C (by decide)
  have h2 : ¬ (rdropL ('-' :: C)).isEmpty = true := by
    rw [h1]
    simp
  rw [rdropL_cons_of_ne ' ' _ h2, h1]

theorem dropWhile_head_not (p : Char → Bool) (l : List Char) (u : Char) (R : List Char)
    (h : l.dropWhile p = u :: R) : ¬ p u = true := by
  induction l with
  | nil => exact absurd h (by simp)
  | cons a t ih =>
    by_cases pa : p a = true
    · rw [List.dropWhile_cons_of_pos pa] at h
      exact ih h
    · rw [List.dropWhile_cons_of_neg pa] at h
      rw [List.cons.injEq] at h
      rw [h.1] at pa
      exact pa

/-- The key separator lemma: sanitizing around a " - " joiner splits into
the sanitizations of the sides, provided both sides survive sanitization. -/
theorem tcL_sep (x y : List Char) (hx : tcL x ≠ []) (hy : tcL y ≠ []) :
    tcL (x ++ ' ' :: '-' :: ' ' :: y) = tcL x ++ ' ' :: '-' :: ' ' :: tcL y := by
  have hsp : collapseWS (' ' :: '-' :: ' ' :: y) =
      ' ' :: '-' :: collapseWS (' ' :: y) := by
    rw [show collapseWS (' ' :: '-' :: ' ' :: y) =
        if isWS ' ' && isWS '-' then collapseWS ('-' :: ' ' :: y)
        else normWS ' ' :: collapseWS ('-' :: ' ' :: y) from rfl]
    rw [if_neg (by decide)]
    rw [collapseWS_cons_not_ws '-' (' ' :: y) (by decide)]
    rfl
  have hD : collapseWS (' ' :: y) =
      ' ' :: collapseWS (y.dropWhile (fun c => isWS c)) :=
    collapseWS_cons_ws ' ' y (by decide)
  set D := collapseWS (y.dropWhile (fun c => isWS c)) with hDdef
  -- `tcL y` in terms of `D`
  have hTCy : tcL y = ltrimL (rdropL D) := by
    cases y with
    | nil =>
      exfalso
      exact hy rfl
    | cons y0 y2 =>
      by_cases hy0 : isWS y0 = true
      · unfold tcL trimL
        rw [collapseWS_cons_ws y0 y2 hy0]
        rw [List.dropWhile_cons_of_pos (by simpa using hy0)] at hDdef
        rw [← hDdef]
        by_cases hDe : (rdropL D).isEmpty = true
        · rw [show rdropL (' ' :: D) = rdropL ([' '] ++ D) from rfl, rdropL_append,
            if_pos hDe, rdropL_singleton, if_pos (by decide)]
          rw [List.isEmpty_iff] at hDe
          rw [hDe]
        · rw [rdropL_cons_of_ne ' ' D hDe]
          rw [ltrimL_cons_ws ' ' _ (by decide)]
      · unfold tcL trimL
        rw [show List.dropWhile (fun c => isWS c) (y0 :: y2) = y0 :: y2 from
          List.dropWhile_cons_of_neg (by simpa using hy0)] at hDdef
        rw [hDdef]
  -- `D` starts with a non-whitespace character when nonempty
  have hDhead : ∀ u R, D = u :: R → ¬ isWS u = true := by
    intro u R hD2
    rcases hyd : y.dropWhile (fun c => isWS c) with - | ⟨u2, R2⟩
    · rw [hyd] at hDdef
      rw [hDdef] at hD2
      exact absurd hD2 (by simp [collapseWS])
    · have hu2 : ¬ isWS u2 = true := by
        have := dropWhile_head_not (fun c => isWS c) y u2 R2 hyd
        simpa using this
      rw [hyd] at hDdef
      rw [hDdef, collapseWS_cons_not_ws u2 R2 hu2] at hD2
      rw [List.cons.injEq] at hD2
      rw [hD2.1] at hu2
      exact hu2
  -- the collapsed whole
  have hcol : collapseWS (x ++ ' ' :: '-' :: ' ' :: y) =
      rdropL (collapseWS x) ++ ' ' :: '-' :: ' ' :: D := by
    rw [collapseWS_append_sp x ('-' :: ' ' :: y), hsp, hD]
  -- right-trimming the whole
  have hDne : ¬ (rdropL D).isEmpty = true := by
    intro hDe
    refine hy ?_
    rw [hTCy, List.isEmpty_iff.mp hDe]
    rfl
  have hBsp : rdropL (' ' :: D) = ' ' :: rdropL D := rdropL_cons_of_ne ' ' D hDne
  have hrd : rdropL (collapseWS (x ++ ' ' :: '-' :: ' ' :: y)) =
      rdropL (collapseWS x) ++ ' ' :: '-' :: ' ' :: rdropL D := by
    rw [hcol]
    rw [show (' ' :: '-' :: ' ' :: D) = ' ' :: '-' :: (' ' :: D) from rfl]
    rw [rdropL_append]
    rw [rdropL_sep (' ' :: D), hBsp]
    rw [if_neg (by simp)]
  -- `rdropL D` is already left-trimmed
  have hltD : ltrimL (rdropL D) = rdropL D := by
    rcases hrdD : rdropL D with - | ⟨u, R⟩
    · rfl
    · obtain ⟨t, hdec⟩ := rdropL_decomp D
      rw [hrdD] at hdec
      have hu : ¬ isWS u = true := hDhead u (R ++ t) (by rw [hdec]; simp)
      exact ltrimL_cons_not_ws u R hu
  -- assemble
  have hltr : ∀ A T : List Char, ltrimL (A ++ T) =
      if (ltrimL A).isEmpty then ltrimL T else ltrimL A ++ T := by
    intro A T
    unfold ltrimL
    rw [List.dropWhile_append]
  show ltrimL (rdropL (collapseWS (x ++ ' ' :: '-' :: ' ' :: y))) = _
  rw [hrd, hltr]
  rw [if_neg (by
    intro he
    refine hx ?_
    exact List.isEmpty_iff.mp he)]
  rw [show ltrimL (rdropL (collapseWS x)) = tcL x from rfl]
  rw [hTCy, hltD]

theorem dropWhile_idem (p : Char → Bool) (l : List Char) :
    (l.dropWhile p).dropWhile p = l.dropWhile p := by
  rcases hd : l.dropWhile p with - | ⟨u, R⟩
  · rfl
  · exact List.dropWhile_cons_of_neg (dropWhile_head_not p l u R hd)

theorem ltrimL_idem (l : List Char) : ltrimL (ltrimL l) = ltrimL l :=
  dropWhile_idem (fun c => isWS c) l

theorem rdropL_idem (l : List Char) : rdropL (rdropL l) = rdropL l := by
  unfold rdropL ltrimL
  rw [List.reverse_reverse]
  rw [dropWhile_idem]

theorem rdropL_length_le (l : List Char) : (rdropL l).length ≤ l.length := by
  obtain ⟨t, ht⟩ := rdropL_decomp l
  have := congrArg List.length ht
  rw [List.length_append] at this
  omega

theorem rdropL_suffix_pres (P Z : List Char) (h : rdropL (P ++ Z) = P ++ Z) :
    rdropL Z = Z := by
  rw [rdropL_append] at h
  by_cases he : (rdropL Z).isEmpty = true
  · rw [if_pos he] at h
    have hlen := rdropL_length_le P
    rw [h, List.length_append] at hlen
    have hz : Z.length = 0 := by omega
    rw [List.length_eq_zero] at hz
    rw [hz]
    rfl
  · rw [if_neg he] at h
    exact List.append_cancel_left h

/-- The output of `trimL ∘ collapseWS` is already stripped. -/
theorem trimL_tcL (l : List Char) : trimL (tcL l) = tcL l := by
  show trimL (ltrimL (rdropL (collapseWS l))) = _
  set Y := rdropL (collapseWS l) with hY
  have hYr : rdropL Y = Y := rdropL_idem (collapseWS l)
  have hsuf : Y = Y.takeWhile (fun c => isWS c) ++ ltrimL Y :=
    (List.takeWhile_append_dropWhile (fun c => isWS c) Y).symm
  have h1 : rdropL (ltrimL Y) = ltrimL Y := by
    refine rdropL_suffix_pres (Y.takeWhile (fun c => isWS c)) (ltrimL Y) ?_
    rw [← hsuf]
    exact hYr
  show ltrimL (rdropL (ltrimL Y)) = _
  rw [h1, ltrimL_idem]
  rfl

theorem trimS_sanitized (l : List Char) : trimL (sanitizeL l) = sanitizeL l :=
  trimL_tcL (l.map replC)

theorem map_replC_join (l : List Char) (R : List Char) :
    (l ++ ' ' :: '-' :: ' ' :: R).map replC =
      l.map replC ++ ' ' :: '-' :: ' ' :: R.map replC := by
  rw [List.map_append]
  rfl

/-- Sanitizing the five-way " - " join splits into the sanitizations of the
fields, provided every field survives sanitization. -/
theorem sanitizeL_join5 (l1 l2 l3 l4 l5 : List Char)
    (h1 : sanitizeL l1 ≠ []) (h2 : sanitizeL l2 ≠ []) (h3 : sanitizeL l3 ≠ [])
    (h4 : sanitizeL l4 ≠ []) (h5 : sanitizeL l5 ≠ []) :
    sanitizeL (l1 ++ ' ' :: '-' :: ' ' :: (l2 ++ ' ' :: '-' :: ' ' ::
        (l3 ++ ' ' :: '-' :: ' ' :: (l4 ++ ' ' :: '-' :: ' ' :: l5)))) =
      sanitizeL l1 ++ ' ' :: '-' :: ' ' :: (sanitizeL l2 ++ ' ' :: '-' :: ' ' ::
        (sanitizeL l3 ++ ' ' :: '-' :: ' ' :: (sanitizeL l4 ++ ' ' :: '-' :: ' ' ::
          sanitizeL l5))) := by
  simp only [sanitizeL_eq_tc]
  rw [map_replC_join, map_replC_join, map_replC_join, map_replC_join]
  rw [sanitizeL_eq_tc] at h1 h2 h3 h4 h5
  have e45 : tcL (l4.map replC ++ ' ' :: '-' :: ' ' :: l5.map replC) =
      tcL (l4.map replC) ++ ' ' :: '-' :: ' ' :: tcL (l5.map replC) :=
    tcL_sep _ _ h4 h5
  have e345 : tcL (l3.map replC ++ ' ' :: '-' :: ' ' ::
      (l4.map replC ++ ' ' :: '-' :: ' ' :: l5.map replC)) =
      tcL (l3.map replC) ++ ' ' :: '-' :: ' ' ::
        (tcL (l4.map replC) ++ ' ' :: '-' :: ' ' :: tcL (l5.map replC)) := by
    rw [tcL_sep _ _ h3 (by rw [e45]; simp), e45]
  have e2345 : tcL (l2.map replC ++ ' ' :: '-' :: ' ' :: (l3.map replC ++ ' ' :: '-' ::
      ' ' :: (l4.map replC ++ ' ' :: '-' :: ' ' :: l5.map replC))) =
      tcL (l2.map replC) ++ ' ' :: '-' :: ' ' :: (tcL (l3.map replC) ++ ' ' :: '-' ::
        ' ' :: (tcL (l4.map replC) ++ ' ' :: '-' :: ' ' :: tcL (l5.map replC))) := by
    rw [tcL_sep _ _ h2 (by rw [e345]; simp), e345]
  rw [tcL_sep _ _ h1 (by rw [e2345]; simp), e2345]

theorem toList_mk (l : List Char) : (String.mk l).toList = l := rfl

/-- Splitting the sanitized five-way join recovers the five parts when the
first four contain no separator occurrence and do not end in
whitespace-dash. -/
theorem splitWS_join5 (g1 g2 g3 g4 g5 : List Char)
    (c1 : containsWDW g1 = false) (e1 : endsWD g1 = false)
    (c2 : containsWDW g2 = false) (e2 : endsWD g2 = false)
    (c3 : containsWDW g3 = false) (e3 : endsWD g3 = false)
    (c4 : containsWDW g4 = false) (e4 : endsWD g4 = false) :
    splitWS 4 [] (g1 ++ ' ' :: '-' :: ' ' :: (g2 ++ ' ' :: '-' :: ' ' ::
        (g3 ++ ' ' :: '-' :: ' ' :: (g4 ++ ' ' :: '-' :: ' ' :: g5)))) =
      [g1, g2, g3, g4, g5] := by
  rw [show (4 : Nat) = 3 + 1 from rfl]
  rw [splitWS_step 3 g1 c1 e1 [] _ ' ' ' ' (by decide) (by decide)]
  rw [show (3 : Nat) = 2 + 1 from rfl]
  rw [splitWS_step 2 g2 c2 e2 [] _ ' ' ' ' (by decide) (by decide)]
  rw [show (2 : Nat) = 1 + 1 from rfl]
  rw [splitWS_step 1 g3 c3 e3 [] _ ' ' ' ' (by decide) (by decide)]
  rw [show (1 : Nat) = 0 + 1 from rfl]
  rw [splitWS_step 0 g4 c4 e4 [] _ ' ' ' ' (by decide) (by decide)]
  rw [splitWS_zero]
  simp

/-- Claim C2 (amended): decoding an encoded record recovers exactly the
sanitized fields, provided every sanitized field is nonempty and the first
four sanitized fields contain no occurrence of the separator pattern
whitespace-dash-whitespace and do not end in whitespace-dash.  (The
condition of the original claim, that no raw field contains the literal
" - " or a filesystem-illegal character, is not sufficient:
`parse_build_cex` refutes it with a field containing tab-dash-tab, which
`sanitize_name` itself turns into the literal separator.) -/
theorem parse_build_eq (n : Int) (f2 f3 f4 f5 : String)
    (n1 : sanitizeL (toString n).toList ≠ [])
    (c1 : containsWDW (sanitizeL (toString n).toList) = false)
    (e1 : endsWD (sanitizeL (toString n).toList) = false)
    (n2 : sanitizeL f2.toList ≠ [])
    (c2 : containsWDW (sanitizeL f2.toList) = false)
    (e2 : endsWD (sanitizeL f2.toList) = false)
    (n3 : sanitizeL f3.toList ≠ [])
    (c3 : containsWDW (sanitizeL f3.toList) = false)
    (e3 : endsWD (sanitizeL f3.toList) = false)
    (n4 : sanitizeL f4.toList ≠ [])
    (c4 : containsWDW (sanitizeL f4.toList) = false)
    (e4 : endsWD (sanitizeL f4.toList) = false)
    (n5 : sanitizeL f5.toList ≠ []) :
    parse_bid_folder_name (build_bid_folder_name n f2 f3 f4 f5) =
      some ⟨sanitize_name (toString n), sanitize_name f2, sanitize_name f3,
        sanitize_name f4, sanitize_name f5, build_bid_folder_name n f2 f3 f4 f5⟩ := by
  unfold parse_bid_folder_name
  have hb : (build_bid_folder_name n f2 f3 f4 f5).toList =
      sanitizeL (toString n).toList ++ ' ' :: '-' :: ' ' :: (sanitizeL f2.toList ++
        ' ' :: '-' :: ' ' :: (sanitizeL f3.toList ++ ' ' :: '-' :: ' ' ::
          (sanitizeL f4.toList ++ ' ' :: '-' :: ' ' :: sanitizeL f5.toList))) := by
    show sanitizeL _ = _
    exact sanitizeL_join5 _ _ _ _ _ n1 n2 n3 n4 n5
  rw [hb]
  rw [splitWS_join5 _ _ _ _ _ c1 e1 c2 e2 c3 e3 c4 e4]
  simp only
  rw [show trimL (sanitizeL (toString n).toList) = sanitizeL (toString n).toList from
    trimS_sanitized _]
  rw [show trimL (sanitizeL f2.toList) = sanitizeL f2.toList from trimS_sanitized _]
  rw [show trimL (sanitizeL f3.toList) = sanitizeL f3.toList from trimS_sanitized _]
  rw [show trimL (sanitizeL f4.toList) = sanitizeL f4.toList from trimS_sanitized _]
  rw [show trimL (sanitizeL f5.toList) = sanitizeL f5.toList from trimS_sanitized _]
  rfl

/-! ### Row lookup lemmas -/

theorem find?_congr_list {α : Type} (l : List α) (p q : α → Bool)
    (h : ∀ x ∈ l, p x = q x) : l.find? p = l.find? q := by
  induction l with
  | nil => rfl
  | cons a t ih =>
    rw [List.find?_cons, List.find?_cons, h a (List.mem_cons_self a t)]
    rcases q a with - | -
    · exact ih (fun x hx => h x (List.mem_cons_of_mem a hx))
    · rfl

theorem find?_range'_some (p : Nat → Bool) (r : Nat) :
    ∀ (a n : Nat), (List.range' a n).find? p = some r ↔
      (a ≤ r ∧ r < a + n ∧ p r = true ∧ ∀ j, a ≤ j → j < r → p j = false) := by
  intro a n
  induction n generalizing a with
  | zero =>
    simp only [List.range'_zero, List.find?_nil]
    constructor
    · intro h
      exact absurd h (by simp)
    · rintro ⟨h1, h2, -, -⟩
      omega
  | succ n ih =>
    rw [List.range'_succ, List.find?_cons]
    rcases hpa : p a with - | -
    · rw [ih (a + 1)]
      constructor
      · rintro ⟨h1, h2, h3, h4⟩
        refine ⟨by omega, by omega, h3, ?_⟩
        intro j hj1 hj2
        rcases Nat.eq_or_lt_of_le hj1 with rfl | hlt
        · exact hpa
        · exact h4 j (by omega) hj2
      · rintro ⟨h1, h2, h3, h4⟩
        have hra : r ≠ a := by
          rintro rfl
          rw [hpa] at h3
          exact Bool.noConfusion h3
        exact ⟨by omega, by omega, h3, fun j hj1 hj2 => h4 j (by omega) hj2⟩
    · simp only [Option.some.injEq]
      constructor
      · rintro rfl
        exact ⟨Nat.le_refl a, by omega, hpa, fun j hj1 hj2 => by omega⟩
      · rintro ⟨h1, h2, h3, h4⟩
        by_contra hne
        have := h4 a (Nat.le_refl a) (by omega)
        rw [hpa] at this
        exact Bool.noConfusion this

theorem find?_range'_none (p : Nat → Bool) (a n : Nat) :
    (List.range' a n).find? p = none ↔ ∀ j, a ≤ j → j < a + n → p j = false := by
  rw [List.find?_eq_none]
  constructor
  · intro h j hj1 hj2
    have := h j (by rw [List.mem_range'_1]; omega)
    simpa using this
  · intro h x hx
    rw [List.mem_range'_1] at hx
    have := h x hx.1 hx.2
    simp [this]

/-- Characterization of `get_row_index_by_value` returning a row. -/
theorem rowIndex_some_iff (ws : Worksheet) (col : Nat) (t : String) (r : Nat)
    (h1 : 1 ≤ ws.maxRow) :
    get_row_index_by_value ws col t = some r ↔
      (2 ≤ r ∧ r ≤ ws.maxRow ∧ cellMatches ws r col t = true ∧
        ∀ j, 2 ≤ j → j < r → cellMatches ws j col t = false) := by
  unfold get_row_index_by_value
  rw [find?_range'_some]
  unfold get_last_row
  constructor
  · rintro ⟨a1, a2, a3, a4⟩
    exact ⟨a1, by omega, a3, a4⟩
  · rintro ⟨a1, a2, a3, a4⟩
    exact ⟨a1, by omega, a3, a4⟩

/-- Characterization of `get_row_index_by_value` finding nothing. -/
theorem rowIndex_none_iff (ws : Worksheet) (col : Nat) (t : String)
    (h1 : 1 ≤ ws.maxRow) :
    get_row_index_by_value ws col t = none ↔
      ∀ j, 2 ≤ j → j ≤ ws.maxRow → cellMatches ws j col t = false := by
  unfold get_row_index_by_value
  rw [find?_range'_none]
  unfold get_last_row
  constructor
  · intro h j hj1 hj2
    exact h j hj1 (by omega)
  · intro h j hj1 hj2
    exact h j hj1 (by omega)

theorem rowIndex_congr (w1 w2 : Worksheet) (col : Nat) (t : String)
    (hmax : w1.maxRow = w2.maxRow)
    (hcells : ∀ r, w1.cells r col = w2.cells r col) :
    get_row_index_by_value w1 col t = get_row_index_by_value w2 col t := by
  unfold get_row_index_by_value get_last_row
  rw [hmax]
  exact find?_congr_list _ _ _ (fun r _ => by unfold cellMatches; rw [hcells r])

/-! ### The sync pass over canonical columns -/

theorem write_row_eq_C (m : HMap)
    (h1 : m "Bid Folder" = some 1) (h2 : m "Bid Number" = some 2)
    (h3 : m "Estimator" = some 3) (h4 : m "Bid Due Date" = some 4)
    (h5 : m "Customer/GC" = some 5) (h6 : m "Bid Name" = some 6)
    (ws : Worksheet) (row : Nat) (i : BidFolderInfo) :
    write_row ws m row i = write_rowC ws row i := by
  unfold write_row write_rowC hcol
  rw [h1, h2, h3, h4, h5, h6]
  rfl

theorem syncStep_eq_C (m : HMap)
    (h1 : m "Bid Folder" = some 1) (h2 : m "Bid Number" = some 2)
    (h3 : m "Estimator" = some 3) (h4 : m "Bid Due Date" = some 4)
    (h5 : m "Customer/GC" = some 5) (h6 : m "Bid Name" = some 6)
    (st : Worksheet × Nat) (name : String) :
    syncStep m st name = syncStepC st name := by
  unfold syncStep syncStepC
  rcases parse_bid_folder_name name with - | i
  · rfl
  · simp only [show hcol m "Bid Number" = 2 from by unfold hcol; rw [h2]; rfl,
      show hcol m "Bid Folder" = 1 from by unfold hcol; rw [h1]; rfl,
      write_row_eq_C m h1 h2 h3 h4 h5 h6]

theorem foldl_ext {α β : Type} (f g : β → α → β) (h : ∀ st x, f st x = g st x) :
    ∀ (L : List α) (st : β), L.foldl f st = L.foldl g st := by
  intro L
  induction L with
  | nil => intro st; rfl
  | cons a t ih =>
    intro st
    rw [List.foldl_cons, List.foldl_cons, h st a, ih]

theorem write_rowC_cells (ws : Worksheet) (row : Nat) (i : BidFolderInfo) (r c : Nat) :
    (write_rowC ws row i).cells r c =
      match cellOf (row, i) r c with
      | some v => some v
      | none => ws.cells r c := by
  unfold write_rowC writeCell cellOf
  simp only
  by_cases hr : r = row
  · subst hr
    by_cases h6 : c = 6
    · simp [h6]
    · by_cases h5 : c = 5
      · simp [h6, h5]
      · by_cases h4 : c = 4
        · simp [h6, h5, h4]
        · by_cases h3 : c = 3
          · simp [h6, h5, h4, h3]
          · by_cases h2 : c = 2
            · simp [h6, h5, h4, h3, h2]
            · by_cases h1 : c = 1
              · simp [h6, h5, h4, h3, h2, h1]
              · simp [h6, h5, h4, h3, h2, h1]
  · simp [hr]

theorem write_rowC_maxRow (ws : Worksheet) (row : Nat) (i : BidFolderInfo) :
    (write_rowC ws row i).maxRow = max ws.maxRow row := by
  unfold write_rowC
  simp only [writeCell_maxRow]
  omega

/-! ### Stability facts used by the idempotence analysis -/

theorem trimL_trimL (l : List Char) : trimL (trimL l) = trimL l := by
  show trimL (ltrimL (rdropL l)) = _
  have hYr : rdropL (rdropL l) = rdropL l := rdropL_idem l
  have hsuf : rdropL l = (rdropL l).takeWhile (fun c => isWS c) ++ ltrimL (rdropL l) :=
    (List.takeWhile_append_dropWhile (fun c => isWS c) (rdropL l)).symm
  have h1 : rdropL (ltrimL (rdropL l)) = ltrimL (rdropL l) := by
    refine rdropL_suffix_pres ((rdropL l).takeWhile (fun c => isWS c)) (ltrimL (rdropL l)) ?_
    rw [← hsuf]
    exact hYr
  show ltrimL (rdropL (ltrimL (rdropL l))) = _
  rw [h1, ltrimL_idem]
  rfl

theorem trimS_trimS (s : String) : trimS (trimS s) = trimS s := by
  unfold trimS
  rw [toList_mk, trimL_trimL]

/-- The bid-number field of a parsed record is already stripped, and the
folder field is the name itself. -/
theorem parse_trimmed (nm : String) (i : BidFolderInfo)
    (h : parse_bid_folder_name nm = some i) :
    trimS i.bid_number = i.bid_number ∧ i.folder = nm := by
  unfold parse_bid_folder_name at h
  split at h
  · next p0 p1 p2 p3 p4 heq =>
    cases h
    refine ⟨?_, rfl⟩
    show trimS ⟨trimL p0⟩ = _
    unfold trimS
    rw [toList_mk, trimL_trimL]
  · exact Option.noConfusion h

/-- The scan never changes a row-1 cell that is missing or empty. -/
theorem scan_cell_notruthy (cols : List Nat) :
    ∀ (st : Worksheet × HMap × Bool) (col : Nat),
      (∀ s, st.1.cells 1 col = some s → s.isEmpty = true) →
      (cols.foldl ensureStep st).1.cells 1 col = st.1.cells 1 col := by
  induction cols with
  | nil => intro st col h; rfl
  | cons col0 rest ih =>
    intro st col h
    rw [List.foldl_cons]
    have hpres : (ensureStep st col0).1.cells 1 col = st.1.cells 1 col := by
      rcases ensureStep_cases st col0 with hsame | ⟨s, hc, hne, heq⟩
      · rw [hsame]
      · rw [heq]
        by_cases hcol : col = col0
        · subst hcol
          exact absurd (h s hc) hne
        · by_cases hl : legacyMap s ≠ s
          · rw [if_pos hl]
            exact writeCell_other st.1 1 col0 (legacyMap s) 1 col (fun hx => hcol hx.2)
          · rw [if_neg hl]
    rw [ih (ensureStep st col0) col (fun s hs => h s ((hpres.symm.trans hs)))]
    exact hpres

/-- `ensure_headers` never changes a row-1 cell in columns 10..30 that is
missing or empty. -/
theorem ensure_headers_cell_1030 (ws : Worksheet) (col : Nat)
    (h10 : 10 ≤ col) (h30 : col ≤ 30)
    (h : ∀ s, ws.cells 1 col = some s → s.isEmpty = true) :
    (ensure_headers ws).1.cells 1 col = ws.cells 1 col := by
  unfold ensure_headers
  have hsc := scan_cell_notruthy (List.range' 1 30) (ws, emptyH, false) col h
  rcases hscan : (List.range' 1 30).foldl ensureStep (ws, emptyH, false) with ⟨ws1, m, b⟩
  rw [hscan] at hsc
  by_cases hb : b = true
  · subst hb
    simp only [Bool.not_true, if_false]
    by_cases hre : (headerPairs.any fun p => ws1.cells 1 p.1 ≠ some p.2) = true
    · rw [if_pos hre]
      exact (headerWrite_frame ws1 1 col (Or.inr (Or.inr (by omega)))).trans hsc
    · rw [if_neg hre]
      exact hsc
  · rw [show b = false from by rcases b with - | - <;> simp_all]
    simp only [Bool.not_false, if_true]
    exact (headerWrite_frame ws1 1 col (Or.inr (Or.inr (by omega)))).trans hsc

/-- Every truthy row-1 cell of an `ensure_headers` output is already
alias-resolved: a second normalization has nothing left to rewrite. -/
theorem ensure_headers_fixed (ws : Worksheet) :
    ∀ col ∈ List.range' 1 30, ∀ s, (ensure_headers ws).1.cells 1 col = some s →
      ¬ s.isEmpty = true → legacyMap s = s := by
  intro col hcol s hcell hne
  rw [List.mem_range'_1] at hcol
  obtain ⟨hlo, hhi⟩ := hcol
  by_cases h9 : col ≤ 9
  · obtain ⟨c1, c2, c3, c4, c5, c6, c7, c8, c9⟩ := ensure_headers_row1 ws
    interval_cases col
    · rw [c1] at hcell; cases hcell; rfl
    · rw [c2] at hcell; cases hcell; rfl
    · rw [c3] at hcell; cases hcell; rfl
    · rw [c4] at hcell; cases hcell; rfl
    · rw [c5] at hcell; cases hcell; rfl
    · rw [c6] at hcell; cases hcell; rfl
    · rw [c7] at hcell; cases hcell; rfl
    · rw [c8] at hcell; cases hcell; rfl
    · rw [c9] at hcell; cases hcell; rfl
  · rcases hc0 : ws.cells 1 col with - | s0
    · rw [ensure_headers_cell_1030 ws col (by omega) (by omega)
        (fun s1 hs1 => by rw [hc0] at hs1; exact Option.noConfusion hs1), hc0] at hcell
      exact Option.noConfusion hcell
    · by_cases he : s0.isEmpty = true
      · rw [ensure_headers_cell_1030 ws col (by omega) (by omega)
          (fun s1 hs1 => by rw [hc0] at hs1; cases hs1; exact he), hc0] at hcell
        cases hcell
        exact absurd he hne
      · rw [ensure_headers_alias ws col s0 (by omega) (by omega) hc0 he] at hcell
        cases hcell
        exact legacyMap_idem s0

/-! ### The first sync pass on a fresh sheet appends one row per record -/

theorem recs_cons_none (nm : String) (F : List String)
    (h : parse_bid_folder_name nm = none) : recs (nm :: F) = recs F := by
  unfold recs
  rw [List.filterMap_cons_none h]

theorem recs_cons_some (nm : String) (F : List String) (i : BidFolderInfo)
    (h : parse_bid_folder_name nm = some i) : recs (nm :: F) = i :: recs F := by
  unfold recs
  rw [List.filterMap_cons_some h]

theorem syncStepC_skip (st : Worksheet × Nat) (nm : String)
    (h : parse_bid_folder_name nm = none) : syncStepC st nm = st := by
  unfold syncStepC
  rw [h]

theorem write_rowC_frame (ws : Worksheet) (r : Nat) (i : BidFolderInfo)
    (rr cc : Nat) (h : rr ≠ r) :
    (write_rowC ws r i).cells rr cc = ws.cells rr cc := by
  rw [write_rowC_cells]
  unfold cellOf
  rw [if_neg h]

theorem write_rowC_rowHas (ws : Worksheet) (r : Nat) (i : BidFolderInfo) :
    rowHas (write_rowC ws r i) r i := by
  unfold rowHas
  refine ⟨?_, ?_, ?_, ?_, ?_, ?_⟩ <;> simp [write_rowC_cells, cellOf]

theorem rowHas_frame (ws : Worksheet) (r : Nat) (i : BidFolderInfo)
    (r2 : Nat) (d : BidFolderInfo) (h : rowHas ws r2 d) (hne : r2 ≠ r) :
    rowHas (write_rowC ws r i) r2 d := by
  obtain ⟨a1, a2, a3, a4, a5, a6⟩ := h
  exact ⟨(write_rowC_frame ws r i r2 1 hne).trans a1,
    (write_rowC_frame ws r i r2 2 hne).trans a2,
    (write_rowC_frame ws r i r2 3 hne).trans a3,
    (write_rowC_frame ws r i r2 4 hne).trans a4,
    (write_rowC_frame ws r i r2 5 hne).trans a5,
    (write_rowC_frame ws r i r2 6 hne).trans a6⟩

theorem write_rowC_id (ws : Worksheet) (r : Nat) (i : BidFolderInfo)
    (hr : r ≤ ws.maxRow) (h : rowHas ws r i) :
    write_rowC ws r i = ws := by
  obtain ⟨a1, a2, a3, a4, a5, a6⟩ := h
  have hcells : (write_rowC ws r i).cells = ws.cells := by
    funext rr cc
    rw [write_rowC_cells]
    unfold cellOf
    by_cases hrr : rr = r
    · rw [if_pos hrr]
      subst hrr
      by_cases e6 : cc = 6
      · rw [if_pos e6]; subst e6; exact a6.symm
      · rw [if_neg e6]
        by_cases e5 : cc = 5
        · rw [if_pos e5]; subst e5; exact a5.symm
        · rw [if_neg e5]
          by_cases e4 : cc = 4
          · rw [if_pos e4]; subst e4; exact a4.symm
          · rw [if_neg e4]
            by_cases e3 : cc = 3
            · rw [if_pos e3]; subst e3; exact a3.symm
            · rw [if_neg e3]
              by_cases e2 : cc = 2
              · rw [if_pos e2]; subst e2; exact a2.symm
              · rw [if_neg e2]
                by_cases e1 : cc = 1
                · rw [if_pos e1]; subst e1; exact a1.symm
                · rw [if_neg e1]
    · rw [if_neg hrr]
  have hmax : (write_rowC ws r i).maxRow = ws.maxRow := by
    rw [write_rowC_maxRow]
    omega
  rcases hw : write_rowC ws r i with ⟨f, m⟩
  rcases hws : ws with ⟨g, n⟩
  rw [hw, hws] at hcells hmax
  simp only at hcells hmax
  rw [hcells, hmax]

theorem foldl_fix {α β : Type} (f : β → α → β) :
    ∀ (L : List α) (st : β), (∀ x ∈ L, f st x = st) → L.foldl f st = st := by
  intro L
  induction L with
  | nil => intro st h; rfl
  | cons a t ih =>
    intro st h
    rw [List.foldl_cons, h a (List.mem_cons_self a t)]
    exact ih st (fun x hx => h x (List.mem_cons_of_mem a hx))

/-- On a worksheet whose data rows 2..|D|+1 hold exactly the already-written
records `D` and whose `max_row` is |D|+1, a sync pass over folders whose
names are stripped, with bid numbers pairwise distinct from each other and
from everything already present, appends each parsed record to the next
fresh row in order. -/
theorem sync_append_run : ∀ (F : List String) (D : List BidFolderInfo) (ws : Worksheet),
    ws.maxRow = D.length + 1 →
    (∀ t rec, D.get? t = some rec → rowHas ws (t + 2) rec) →
    (∀ rec ∈ D, trimS rec.bid_number = rec.bid_number ∧ trimS rec.folder = rec.folder) →
    (∀ nm ∈ F, trimS nm = nm) →
    ((D ++ recs F).map (fun i => i.bid_number)).Pairwise (fun a b => a ≠ b) →
    (∀ rec ∈ D, ∀ nm ∈ F, rec.folder ≠ nm) →
    ∃ ws2, F.foldl syncStepC (ws, D.length + 1) = (ws2, (D ++ recs F).length + 1) ∧
      ws2.maxRow = (D ++ recs F).length + 1 ∧
      (∀ t rec, (D ++ recs F).get? t = some rec → rowHas ws2 (t + 2) rec) ∧
      (∀ r c, r < 2 ∨ (D ++ recs F).length + 1 < r → ws2.cells r c = ws.cells r c) := by
  intro F
  induction F with
  | nil =>
    intro D ws hmax hD hDtrim htrimF hdist hnew
    refine ⟨ws, ?_, ?_, ?_, fun r c h => rfl⟩
    · simp only [recs, List.filterMap_nil, List.append_nil, List.foldl_nil]
    · simp only [recs, List.filterMap_nil, List.append_nil]
      exact hmax
    · intro t rec h
      rw [show D ++ recs [] = D from by simp [recs]] at h
      exact hD t rec h
  | cons nm rest ih =>
    intro D ws hmax hD hDtrim htrimF hdist hnew
    rcases hp : parse_bid_folder_name nm with - | rec
    · rw [List.foldl_cons, syncStepC_skip _ _ hp]
      rw [recs_cons_none nm rest hp] at hdist ⊢
      exact ih D ws hmax hD hDtrim (fun x hx => htrimF x (List.mem_cons_of_mem nm hx)) hdist
        (fun d hd x hx => hnew d hd x (List.mem_cons_of_mem nm hx))
    · have hfolder := (parse_trimmed nm rec hp).2
      have hbidtrim := (parse_trimmed nm rec hp).1
      have hrecs : recs (nm :: rest) = rec :: recs rest := recs_cons_some nm rest rec hp
      rw [hrecs] at hdist ⊢
      have hdistm := hdist
      rw [List.map_append] at hdistm
      have hsplit := List.pairwise_append.mp hdistm
      have h1max : 1 ≤ ws.maxRow := by omega
      have hrecbid : rec.bid_number ∈
          ((rec :: recs rest).map (fun i => i.bid_number)) := by
        rw [List.map_cons]
        exact List.mem_cons_self _ _
      have hfind2 : get_row_index_by_value ws 2 rec.bid_number = none := by
        rw [rowIndex_none_iff ws 2 rec.bid_number h1max]
        intro j hj1 hj2
        rw [hmax] at hj2
        have htlt : j - 2 < D.length := by omega
        have hget : D.get? (j - 2) = some (D.get ⟨j - 2, htlt⟩) := List.get?_eq_get htlt
        have hdmem : D.get ⟨j - 2, htlt⟩ ∈ D := List.get_mem D _ _
        have hrow := hD (j - 2) (D.get ⟨j - 2, htlt⟩) hget
        rw [show j - 2 + 2 = j from by omega] at hrow
        unfold cellMatches
        rw [hrow.2.1]
        show (trimS (D.get ⟨j - 2, htlt⟩).bid_number == rec.bid_number) = false
        rw [(hDtrim _ hdmem).1]
        rw [beq_eq_false_iff_ne]
        exact hsplit.2.2 _ (List.mem_map_of_mem _ hdmem) _ hrecbid
      have hfind1 : get_row_index_by_value ws 1 rec.folder = none := by
        rw [rowIndex_none_iff ws 1 rec.folder h1max]
        intro j hj1 hj2
        rw [hmax] at hj2
        have htlt : j - 2 < D.length := by omega
        have hget : D.get? (j - 2) = some (D.get ⟨j - 2, htlt⟩) := List.get?_eq_get htlt
        have hdmem : D.get ⟨j - 2, htlt⟩ ∈ D := List.get_mem D _ _
        have hrow := hD (j - 2) (D.get ⟨j - 2, htlt⟩) hget
        rw [show j - 2 + 2 = j from by omega] at hrow
        unfold cellMatches
        rw [hrow.1]
        show (trimS (D.get ⟨j - 2, htlt⟩).folder == rec.folder) = false
        rw [(hDtrim _ hdmem).2]
        rw [beq_eq_false_iff_ne, hfolder]
        exact hnew _ hdmem nm (List.mem_cons_self nm rest)
      have hstep : syncStepC (ws, D.length + 1) nm =
          (write_rowC ws (D.length + 1 + 1) rec, D.length + 1 + 1) := by
        unfold syncStepC
        simp only [hp, hfind2, hfind1]
      have hlen1 : (D ++ [rec]).length = D.length + 1 := by simp
      have pmax : (write_rowC ws (D.length + 1 + 1) rec).maxRow = (D ++ [rec]).length + 1 := by
        rw [write_rowC_maxRow, hmax, hlen1]
        omega
      have pD : ∀ t d, (D ++ [rec]).get? t = some d →
          rowHas (write_rowC ws (D.length + 1 + 1) rec) (t + 2) d := by
        intro t d h
        by_cases ht : t < D.length
        · rw [List.get?_append ht] at h
          exact rowHas_frame ws _ rec (t + 2) d (hD t d h) (by omega)
        · by_cases ht2 : t = D.length
          · subst ht2
            rw [List.get?_concat_length] at h
            cases h
            exact write_rowC_rowHas ws (D.length + 1 + 1) rec
          · rw [List.get?_eq_none.mpr (by rw [hlen1]; omega)] at h
            exact Option.noConfusion h
      have pDtrim : ∀ d ∈ D ++ [rec],
          trimS d.bid_number = d.bid_number ∧ trimS d.folder = d.folder := by
        intro d hd
        rcases List.mem_append.mp hd with hd1 | hd2
        · exact hDtrim d hd1
        · rw [List.mem_singleton.mp hd2, hfolder]
          exact ⟨hbidtrim, htrimF nm (List.mem_cons_self nm rest)⟩
      have ptrim : ∀ x ∈ rest, trimS x = x :=
        fun x hx => htrimF x (List.mem_cons_of_mem nm hx)
      have pdist : (((D ++ [rec]) ++ recs rest).map (fun i => i.bid_number)).Pairwise
          (fun a b => a ≠ b) := by
        rw [← List.append_cons]
        exact hdist
      have pnew : ∀ d ∈ D ++ [rec], ∀ x ∈ rest, d.folder ≠ x := by
        intro d hd x hx
        rcases List.mem_append.mp hd with hd1 | hd2
        · exact hnew d hd1 x (List.mem_cons_of_mem nm hx)
        · rw [List.mem_singleton.mp hd2, hfolder]
          intro heq
          have hxparse : parse_bid_folder_name x = some rec := by
            rw [← heq]
            exact hp
          have hmem : rec ∈ recs rest := by
            unfold recs
            exact List.mem_filterMap.mpr ⟨x, hx, hxparse⟩
          have hmem2 : rec.bid_number ∈ ((recs rest).map (fun i => i.bid_number)) :=
            List.mem_map_of_mem _ hmem
          have hcons := List.pairwise_cons.mp (by
            rw [List.map_cons] at hsplit
            exact hsplit.2.1)
          exact hcons.1 rec.bid_number hmem2 rfl
      obtain ⟨ws2, hfold, hmax2, hrows2, hframe2⟩ :=
        ih (D ++ [rec]) (write_rowC ws (D.length + 1 + 1) rec) pmax pD pDtrim ptrim pdist pnew
      rw [hlen1] at hfold
      refine ⟨ws2, ?_, ?_, ?_, ?_⟩
      · rw [List.foldl_cons, hstep, List.append_cons]
        exact hfold
      · rw [List.append_cons]
        exact hmax2
      · intro t d h
        rw [List.append_cons] at h
        exact hrows2 t d h
      · intro r c h
        have hlen2 : (D ++ rec :: recs rest).length = ((D ++ [rec]) ++ recs rest).length := by
          rw [List.append_cons]
        have h2 : r < 2 ∨ ((D ++ [rec]) ++ recs rest).length + 1 < r := by
          rcases h with h | h
          · exact Or.inl h
          · exact Or.inr (by rw [← hlen2]; exact h)
        rw [hframe2 r c h2]
        refine write_rowC_frame ws _ rec r c ?_
        rcases h with h | h
        · omega
        · rw [List.length_append, List.length_cons] at h
          omega

theorem pairwise_ne_get {α : Type} (l : List α)
    (h : l.Pairwise (fun a b => a ≠ b)) (i j : Nat) (hij : i < j) (a b : α)
    (ha : l.get? i = some a) (hb : l.get? j = some b) : a ≠ b := by
  obtain ⟨hi, hga⟩ := List.get?_eq_some.mp ha
  obtain ⟨hj, hgb⟩ := List.get?_eq_some.mp hb
  have hpg := List.pairwise_iff_get.mp h ⟨i, hi⟩ ⟨j, hj⟩ (Fin.mk_lt_mk.mpr hij)
  rw [hga, hgb] at hpg
  exact hpg

/-- A second pass over the same folders, starting from the sheet the first
pass produced, is the identity: every record is matched by bid number at
its own row and rewritten there with its existing content. -/
theorem sync_second_fix (F : List String) (L : List BidFolderInfo) (ws1 : Worksheet)
    (hL : L = recs F)
    (hmax : ws1.maxRow = L.length + 1)
    (hrows : ∀ t rec, L.get? t = some rec → rowHas ws1 (t + 2) rec)
    (hdist : (L.map (fun i => i.bid_number)).Pairwise (fun a b => a ≠ b)) :
    F.foldl syncStepC (ws1, L.length + 1) = (ws1, L.length + 1) := by
  refine foldl_fix syncStepC F (ws1, L.length + 1) ?_
  intro nm hnm
  rcases hp : parse_bid_folder_name nm with - | rec
  · exact syncStepC_skip _ _ hp
  · have hmem : rec ∈ L := by
      rw [hL]
      unfold recs
      exact List.mem_filterMap.mpr ⟨nm, hnm, hp⟩
    obtain ⟨t, ht⟩ := List.mem_iff_get?.mp hmem
    have htlt : t < L.length := by
      by_contra hx
      rw [List.get?_eq_none.mpr (by omega)] at ht
      exact Option.noConfusion ht
    have hbt := hrows t rec ht
    have h1m : 1 ≤ ws1.maxRow := by omega
    have hfind2 : get_row_index_by_value ws1 2 rec.bid_number = some (t + 2) := by
      rw [rowIndex_some_iff ws1 2 rec.bid_number (t + 2) h1m]
      refine ⟨by omega, by omega, ?_, ?_⟩
      · unfold cellMatches
        rw [hbt.2.1]
        show (trimS rec.bid_number == rec.bid_number) = true
        rw [(parse_trimmed nm rec hp).1]
        exact beq_self_eq_true _
      · intro j hj1 hj2
        have hjlt : j - 2 < L.length := by omega
        have hget : L.get? (j - 2) = some (L.get ⟨j - 2, hjlt⟩) := List.get?_eq_get hjlt
        have hrj := hrows (j - 2) _ hget
        rw [show j - 2 + 2 = j from by omega] at hrj
        unfold cellMatches
        rw [hrj.2.1]
        show (trimS (L.get ⟨j - 2, hjlt⟩).bid_number == rec.bid_number) = false
        have hjtrim : ∀ d ∈ L, trimS d.bid_number = d.bid_number := by
          intro d hd
          rw [hL] at hd
          obtain ⟨x, hx, hpx⟩ := List.mem_filterMap.mp hd
          exact (parse_trimmed x _ hpx).1
        rw [hjtrim _ (List.get_mem L _ _), beq_eq_false_iff_ne]
        refine pairwise_ne_get _ hdist (j - 2) t (by omega) _ _ ?_ ?_
        · rw [List.get?_map, hget]
          rfl
        · rw [List.get?_map, ht]
          rfl
    have hid : write_rowC ws1 (t + 2) rec = ws1 :=
      write_rowC_id ws1 (t + 2) rec (by omega) hbt
    unfold syncStepC
    simp only [hp, hfind2, hid]

/-- `syncWS` is the fold of `syncStepC` over the sorted folder list, because
the mapping returned by `ensure_headers` always sends the six written
headers to columns 1..6. -/
theorem syncWS_eq_fold (root : List String) (ws : Worksheet) :
    syncWS root ws = ((get_bid_folders root).foldl syncStepC
      ((ensure_headers ws).1, get_last_row (ensure_headers ws).1)).1 := by
  show ((get_bid_folders root).foldl (syncStep (ensure_headers ws).2)
    ((ensure_headers ws).1, get_last_row (ensure_headers ws).1)).1 = _
  obtain ⟨m1, m2, m3, m4, m5, m6, m7, m8, m9⟩ := ensure_headers_map ws
  rw [foldl_ext (syncStep (ensure_headers ws).2) syncStepC
    (fun st x => syncStep_eq_C (ensure_headers ws).2 m1 m2 m3 m4 m5 m6 st x)]

/-- Claim C3 (amended): when every folder name under the bid root equals its
stripped form, the parsed records carry pairwise-distinct bid numbers, and
the sheet starts with no data rows (`max_row = 1`), running the
`sync_bid_workbook` worksheet pass a second time with an unchanged folder
set is idempotent: the worksheet after the second run is identical to the
worksheet after the first run, every record being matched by bid number at
its own row and rewritten in place rather than re-appended.  (The original
claim, quantified over every bid root and store, is refuted by
`sync_twice_not_idempotent`: an unstripped folder name can be matched by
the folder-name fallback of a different folder during the first run and
then re-appended during the second.) -/
theorem sync_twice_eq_once (root : List String) (ws : Worksheet)
    (hfresh : ws.maxRow = 1)
    (htrim : ∀ nm ∈ root, trimS nm = nm)
    (hdist : ((root.filterMap parse_bid_folder_name).map
      (fun i => i.bid_number)).Pairwise (fun a b => a ≠ b)) :
    syncWS root (syncWS root ws) = syncWS root ws := by
  have hperm : (get_bid_folders root).Perm root := get_bid_folders_perm root
  have htrimF : ∀ nm ∈ get_bid_folders root, trimS nm = nm :=
    fun nm hnm => htrim nm (hperm.subset hnm)
  have hsym : Symmetric (fun a b : String => a ≠ b) := by
    intro a b h
    exact Ne.symm h
  have hdistF : ((recs (get_bid_folders root)).map (fun i => i.bid_number)).Pairwise
      (fun a b => a ≠ b) := by
    have hpm := (hperm.filterMap parse_bid_folder_name).map (fun i => i.bid_number)
    exact (List.Perm.pairwise_iff (fun h => Ne.symm h) hpm).mpr hdist
  have hE1 : 1 ≤ ws.maxRow := by omega
  have hEmax : (ensure_headers ws).1.maxRow = 1 := by
    rw [ensure_headers_maxRow ws hE1, hfresh]
  obtain ⟨ws1, hfold, hmax1, hrows1, hframe1⟩ :=
    sync_append_run (get_bid_folders root) [] (ensure_headers ws).1
      (by rw [hEmax]; rfl)
      (fun t rec h => by
        rw [show ([] : List BidFolderInfo).get? t = none from by cases t <;> rfl] at h
        exact Option.noConfusion h)
      (fun rec h => absurd h (List.not_mem_nil rec))
      htrimF
      (by simpa using hdistF)
      (fun rec h => absurd h (List.not_mem_nil rec))
  simp only [List.nil_append, List.length_nil, Nat.zero_add] at hfold hmax1 hrows1 hframe1
  have hlr : get_last_row (ensure_headers ws).1 = 1 := by
    unfold get_last_row
    rw [hEmax]
    omega
  have hrun1 : syncWS root ws = ws1 := by
    rw [syncWS_eq_fold, hlr, hfold]
  have hrow1cells : ∀ c, ws1.cells 1 c = (ensure_headers ws).1.cells 1 c :=
    fun c => hframe1 1 c (Or.inl (by omega))
  have hnoop : (ensure_headers ws1).1 = ws1 := by
    refine ensure_headers_noop ws1 ?_ ?_
    · intro col hcol s hcell hne
      rw [hrow1cells col] at hcell
      exact ensure_headers_fixed ws col hcol s hcell hne
    · intro p hp
      rw [hrow1cells p.1]
      obtain ⟨c1, c2, c3, c4, c5, c6, c7, c8, c9⟩ := ensure_headers_row1 ws
      rw [headerPairs_eq] at hp
      fin_cases hp
      · exact c1
      · exact c2
      · exact c3
      · exact c4
      · exact c5
      · exact c6
      · exact c7
      · exact c8
      · exact c9
  have hlr1 : get_last_row ws1 = (recs (get_bid_folders root)).length + 1 := by
    unfold get_last_row
    rw [hmax1]
    omega
  have hrun2 : syncWS root ws1 = ws1 := by
    rw [syncWS_eq_fold, hnoop, hlr1]
    rw [sync_second_fix (get_bid_folders root) (recs (get_bid_folders root)) ws1 rfl
      hmax1 hrows1 hdistF]
  rw [hrun1, hrun2]

/-- Witness: a well-formed single-folder root on a fresh sheet satisfies the
hypotheses of the amended idempotence theorem, which then yields the
second-run worksheet equal to the first-run worksheet. -/
theorem sync_twice_eq_once_witness :
    syncWS ["12 - AB - 10-05 - Acme - Job"]
      (syncWS ["12 - AB - 10-05 - Acme - Job"] emptyWS) =
    syncWS ["12 - AB - 10-05 - Acme - Job"] emptyWS :=
  sync_twice_eq_once ["12 - AB - 10-05 - Acme - Job"] emptyWS rfl (by decide) (by decide)

/-- Claim C3 counterexample: with the two folder names
`" - x - y - z - w - v"` (which strips to the second name) and
`"- x - y - z - w - v"`, the first run writes two data rows but the second
run re-appends a third, so the run is not idempotent: the claim as stated,
for every bid root and store, is false.  The second folder is matched by
the folder-name fallback against the first folder's unstripped name during
the first run, and matches nothing during the second. -/
theorem sync_twice_not_idempotent :
    ¬ ((syncWS [" - x - y - z - w - v", "- x - y - z - w - v"]
        (syncWS [" - x - y - z - w - v", "- x - y - z - w - v"] emptyWS)).maxRow =
      (syncWS [" - x - y - z - w - v", "- x - y - z - w - v"] emptyWS).maxRow) := by
  have h1 : (syncWS [" - x - y - z - w - v", "- x - y - z - w - v"] emptyWS).maxRow = 2 := rfl
  have h2 : (syncWS [" - x - y - z - w - v", "- x - y - z - w - v"]
      (syncWS [" - x - y - z - w - v", "- x - y - z - w - v"] emptyWS)).maxRow = 3 := rfl
  rw [h1, h2]
  omega

/-! ### Shape of the split output -/

theorem splitWS_len : ∀ (f : Nat) (acc rest : List Char),
    (splitWS f acc rest).length ≤ f + 1 := by
  intro f acc rest
  induction f, acc, rest using splitWS.induct with
  | case1 f acc =>
    rw [show splitWS f acc [] = [acc.reverse] from by
      rw [splitWS.eq_def]; rcases f with - | g <;> rfl]
    simp
  | case2 acc rest h =>
    rw [splitWS_zero]
    simp
  | case3 acc f a b c t hsep ih =>
    rw [splitWS_cons3, if_pos hsep]
    simp only [List.length_cons]
    omega
  | case4 acc f a b c t hsep ih =>
    rw [splitWS_cons3, if_neg hsep]
    exact Nat.le_trans ih (by omega)
  | case5 acc f a rest1 h ih =>
    rw [show splitWS (f + 1) acc (a :: rest1) = splitWS (f + 1) (a :: acc) rest1 from ?_]
    · exact ih
    · rw [splitWS.eq_def]
      rcases rest1 with - | ⟨b, - | ⟨c, t⟩⟩
      · rfl
      · rfl
      · exact absurd rfl (h b c t)

/-- Splitting a five-way join on separators built from arbitrary whitespace
characters recovers the five parts when the first four contain no separator
occurrence and do not end in whitespace-dash. -/
theorem splitWS_join5_ws (g1 g2 g3 g4 g5 : List Char)
    (w1 w2 w3 w4 w5 w6 w7 w8 : Char)
    (hw1 : isWS w1 = true) (hw2 : isWS w2 = true) (hw3 : isWS w3 = true)
    (hw4 : isWS w4 = true) (hw5 : isWS w5 = true) (hw6 : isWS w6 = true)
    (hw7 : isWS w7 = true) (hw8 : isWS w8 = true)
    (c1 : containsWDW g1 = false) (e1 : endsWD g1 = false)
    (c2 : containsWDW g2 = false) (e2 : endsWD g2 = false)
    (c3 : containsWDW g3 = false) (e3 : endsWD g3 = false)
    (c4 : containsWDW g4 = false) (e4 : endsWD g4 = false) :
    splitWS 4 [] (g1 ++ w1 :: '-' :: w2 :: (g2 ++ w3 :: '-' :: w4 ::
        (g3 ++ w5 :: '-' :: w6 :: (g4 ++ w7 :: '-' :: w8 :: g5)))) =
      [g1, g2, g3, g4, g5] := by
  rw [show (4 : Nat) = 3 + 1 from rfl]
  rw [splitWS_step 3 g1 c1 e1 [] _ w1 w2 hw1 hw2]
  rw [show (3 : Nat) = 2 + 1 from rfl]
  rw [splitWS_step 2 g2 c2 e2 [] _ w3 w4 hw3 hw4]
  rw [show (2 : Nat) = 1 + 1 from rfl]
  rw [splitWS_step 1 g3 c3 e3 [] _ w5 w6 hw5 hw6]
  rw [show (1 : Nat) = 0 + 1 from rfl]
  rw [splitWS_step 0 g4 c4 e4 [] _ w7 w8 hw7 hw8]
  rw [splitWS_zero]
  simp

/-- A parse returns nothing exactly when the split yields fewer than five
parts. -/
theorem decode_none_iff (s : String) :
    parse_bid_folder_name s = none ↔ (splitWS 4 [] s.toList).length < 5 := by
  unfold parse_bid_folder_name
  have hb := splitWS_len 4 [] s.toList
  rcases hsp : splitWS 4 [] s.toList with - | ⟨p0, - | ⟨p1, - | ⟨p2, - | ⟨p3, - | ⟨p4, - | ⟨p5, t⟩⟩⟩⟩⟩⟩ <;>
    first
      | (rw [hsp] at hb; simp only [List.length_cons] at hb ⊢; omega)
      | simp

/-- A name formed of five parts joined by separators made of arbitrary
whitespace characters around a dash decodes to the five parts, trimmed. -/
theorem decode_ws_sep (g1 g2 g3 g4 g5 : List Char)
    (w1 w2 w3 w4 w5 w6 w7 w8 : Char)
    (hw1 : isWS w1 = true) (hw2 : isWS w2 = true) (hw3 : isWS w3 = true)
    (hw4 : isWS w4 = true) (hw5 : isWS w5 = true) (hw6 : isWS w6 = true)
    (hw7 : isWS w7 = true) (hw8 : isWS w8 = true)
    (c1 : containsWDW g1 = false) (e1 : endsWD g1 = false)
    (c2 : containsWDW g2 = false) (e2 : endsWD g2 = false)
    (c3 : containsWDW g3 = false) (e3 : endsWD g3 = false)
    (c4 : containsWDW g4 = false) (e4 : endsWD g4 = false) :
    parse_bid_folder_name ⟨g1 ++ w1 :: '-' :: w2 :: (g2 ++ w3 :: '-' :: w4 ::
        (g3 ++ w5 :: '-' :: w6 :: (g4 ++ w7 :: '-' :: w8 :: g5)))⟩ =
      some ⟨⟨trimL g1⟩, ⟨trimL g2⟩, ⟨trimL g3⟩, ⟨trimL g4⟩, ⟨trimL g5⟩,
        ⟨g1 ++ w1 :: '-' :: w2 :: (g2 ++ w3 :: '-' :: w4 ::
          (g3 ++ w5 :: '-' :: w6 :: (g4 ++ w7 :: '-' :: w8 :: g5)))⟩⟩ := by
  unfold parse_bid_folder_name
  rw [toList_mk]
  rw [splitWS_join5_ws g1 g2 g3 g4 g5 w1 w2 w3 w4 w5 w6 w7 w8 hw1 hw2 hw3 hw4 hw5 hw6 hw7 hw8
    c1 e1 c2 e2 c3 e3 c4 e4]

/-! ## The claims -/

/-- Claim C1 (amended): when the bid number matches no row, `update_bid_status`
fails with a NotFound error, but the store is not left unmodified in
general: the `finally` block still saves the workbook, with the worksheet
as normalized by `ensure_headers`; only the header row (row 1) can differ
from its state before the call.  (The original claim, that no cell differs
and nothing is persisted, is refuted by
`update_missing_bid_modifies_store`.) -/
theorem update_missing_bid_spec (fs : FS) (path : WPath) (nm : String) (inp : UpdateInputs)
    (stamp : String) (ctx : ExcelContext) (fs1 : FS)
    (hopen : new_excel_context fs path nm stamp = .ok (ctx, fs1))
    (hmiss : get_row_index_by_value (ensure_headers (getSheet ctx.workbook nm)).1
      (hcol (ensure_headers (getSheet ctx.workbook nm)).2 "Bid Number") inp.bidNumber = none) :
    update_bid_status fs path nm inp stamp =
      (.error (.notFound inp.bidNumber),
       close_excel_context fs1 ctx (ensure_headers (getSheet ctx.workbook nm)).1) ∧
    (∀ r c, r ≠ 1 → (ensure_headers (getSheet ctx.workbook nm)).1.cells r c =
       (getSheet ctx.workbook nm).cells r c) := by
  constructor
  · unfold update_bid_status
    rw [hopen]
    unfold update_core
    simp only [hmiss]
  · intro r c hr
    exact ensure_headers_frame _ r c hr

/-- Witness: on a store holding one sheet with the legacy header "Bid#" and
no data rows, an update for an absent bid number returns the NotFound error
and saves the normalized worksheet. -/
theorem update_missing_bid_spec_witness :
    update_bid_status
        ⟨fun q => if q = ⟨"Bids", ".xlsx"⟩ then
            some [("S", writeCell emptyWS 1 1 "Bid#")] else none,
         fun q => false⟩
        ⟨"Bids", ".xlsx"⟩ "S" ⟨"zzz", "", false, "", false, "", ""⟩ "20250101-000000" =
      (.error (.notFound "zzz"),
       close_excel_context
         ⟨fun q => if q = ⟨"Bids", ".xlsx"⟩ then
             some [("S", writeCell emptyWS 1 1 "Bid#")] else none,
          fun q => false⟩
         ⟨[("S", writeCell emptyWS 1 1 "Bid#")], "S", false, none, ⟨"Bids", ".xlsx"⟩⟩
         (ensure_headers (getSheet ([("S", writeCell emptyWS 1 1 "Bid#")] : Workbook) "S")).1) ∧
    (∀ r c, r ≠ 1 →
      (ensure_headers (getSheet ([("S", writeCell emptyWS 1 1 "Bid#")] : Workbook) "S")).1.cells r c =
        (getSheet ([("S", writeCell emptyWS 1 1 "Bid#")] : Workbook) "S").cells r c) :=
  update_missing_bid_spec _ _ _ _ _ _ _ rfl (by decide)

/-- Claim C1 counterexample: with the legacy header "Bid#" in row 1 and an
absent bid number, the call errors, yet the persisted sheet differs from
the original: cell (1,1) was "Bid#" before and is "Bid Folder" in the saved
workbook, so the store is modified. -/
theorem update_missing_bid_modifies_store :
    (update_bid_status
        ⟨fun q => if q = ⟨"Bids", ".xlsx"⟩ then
            some [("S", writeCell emptyWS 1 1 "Bid#")] else none,
         fun q => false⟩
        ⟨"Bids", ".xlsx"⟩ "S" ⟨"zzz", "", false, "", false, "", ""⟩ "20250101-000000").1 =
      .error (.notFound "zzz") ∧
    (writeCell emptyWS 1 1 "Bid#").cells 1 1 = some "Bid#" ∧
    ((update_bid_status
        ⟨fun q => if q = ⟨"Bids", ".xlsx"⟩ then
            some [("S", writeCell emptyWS 1 1 "Bid#")] else none,
         fun q => false⟩
        ⟨"Bids", ".xlsx"⟩ "S" ⟨"zzz", "", false, "", false, "", ""⟩ "20250101-000000").2.files
          ⟨"Bids", ".xlsx"⟩).map (fun wb2 => (getSheet wb2 "S").cells 1 1) =
      some (some "Bid Folder") ∧
    ¬ (some "Bid#" : Option String) = some "Bid Folder" :=
  ⟨rfl, by decide, rfl, by decide⟩

/-- Witness: a well-formed encode input with nonempty separator-free fields
round-trips through the folder name to its sanitized fields. -/
theorem parse_build_eq_witness :
    parse_bid_folder_name (build_bid_folder_name 12 "AB" "10-05" "Acme" "Job") =
      some ⟨sanitize_name (toString (12 : Int)), sanitize_name "AB", sanitize_name "10-05",
        sanitize_name "Acme", sanitize_name "Job",
        build_bid_folder_name 12 "AB" "10-05" "Acme" "Job"⟩ :=
  parse_build_eq 12 "AB" "10-05" "Acme" "Job" (by decide) (by decide) (by decide) (by decide)
    (by decide) (by decide) (by decide) (by decide) (by decide) (by decide) (by decide)
    (by decide) (by decide)

/-- Claim C2 counterexample: the customer field tab-dash-tab-b contains no
literal " - " and no filesystem-illegal character, yet decode of its encode
returns customer "a" while the sanitized field is "a - b": sanitization
itself manufactures the separator out of the tabs. -/
theorem parse_build_cex :
    containsLitSep "a\t-\tb".toList = false ∧
    "a\t-\tb".toList.all (fun c => !isIllegal c) = true ∧
    (parse_bid_folder_name (build_bid_folder_name 1 "I" "D" "a\t-\tb" "N")).map
      (fun i => i.customer) = some "a" ∧
    sanitize_name "a\t-\tb" = "a - b" ∧
    ¬ (some "a" : Option String) = some (sanitize_name "a\t-\tb") :=
  ⟨by decide, by decide, by decide, by decide, by decide⟩

/-- Claim C4: `ensure_headers` always returns a mapping holding all nine
canonical headers at columns 1..9; row 1 always ends with the canonical
labels in columns 1..9; no cell outside row 1 is touched; an untouched
missing-or-empty column 10..30 is preserved, and a truthy legacy label
there is rewritten in place to its canonical label (so extra columns stay
queryable under their alias-resolved name); on the legacy sheet
["Folder Name","Bid#","Estimator","Due Date","GC/Owner","Description"] the
six labels are rewritten in place and the three missing canonical headers
are filled into columns 7..9. -/
theorem ensure_headers_spec :
    (∀ ws : Worksheet,
      (ensure_headers ws).2 "Bid Folder" = some 1 ∧
      (ensure_headers ws).2 "Bid Number" = some 2 ∧
      (ensure_headers ws).2 "Estimator" = some 3 ∧
      (ensure_headers ws).2 "Bid Due Date" = some 4 ∧
      (ensure_headers ws).2 "Customer/GC" = some 5 ∧
      (ensure_headers ws).2 "Bid Name" = some 6 ∧
      (ensure_headers ws).2 "Proposal Date" = some 7 ∧
      (ensure_headers ws).2 "Proposal Amount" = some 8 ∧
      (ensure_headers ws).2 "Bid Status" = some 9) ∧
    (∀ ws : Worksheet,
      (ensure_headers ws).1.cells 1 1 = some "Bid Folder" ∧
      (ensure_headers ws).1.cells 1 2 = some "Bid Number" ∧
      (ensure_headers ws).1.cells 1 3 = some "Estimator" ∧
      (ensure_headers ws).1.cells 1 4 = some "Bid Due Date" ∧
      (ensure_headers ws).1.cells 1 5 = some "Customer/GC" ∧
      (ensure_headers ws).1.cells 1 6 = some "Bid Name" ∧
      (ensure_headers ws).1.cells 1 7 = some "Proposal Date" ∧
      (ensure_headers ws).1.cells 1 8 = some "Proposal Amount" ∧
      (ensure_headers ws).1.cells 1 9 = some "Bid Status") ∧
    (∀ ws : Worksheet, ∀ r c : Nat, r ≠ 1 →
      (ensure_headers ws).1.cells r c = ws.cells r c) ∧
    (∀ ws : Worksheet, ∀ col : Nat, 10 ≤ col → col ≤ 30 →
      (∀ s, ws.cells 1 col = some s → s.isEmpty = true) →
      (ensure_headers ws).1.cells 1 col = ws.cells 1 col) ∧
    (∀ ws : Worksheet, ∀ col : Nat, ∀ s : String, 10 ≤ col → col ≤ 30 →
      ws.cells 1 col = some s → ¬ s.isEmpty = true →
      (ensure_headers ws).1.cells 1 col = some (legacyMap s)) ∧
    ((ensure_headers (writeCell (writeCell (writeCell (writeCell (writeCell (writeCell emptyWS
        1 1 "Folder Name") 1 2 "Bid#") 1 3 "Estimator") 1 4 "Due Date") 1 5 "GC/Owner")
        1 6 "Description")).1.cells 1 1 = some "Bid Folder" ∧
      (ensure_headers (writeCell (writeCell (writeCell (writeCell (writeCell (writeCell emptyWS
        1 1 "Folder Name") 1 2 "Bid#") 1 3 "Estimator") 1 4 "Due Date") 1 5 "GC/Owner")
        1 6 "Description")).1.cells 1 2 = some "Bid Number" ∧
      (ensure_headers (writeCell (writeCell (writeCell (writeCell (writeCell (writeCell emptyWS
        1 1 "Folder Name") 1 2 "Bid#") 1 3 "Estimator") 1 4 "Due Date") 1 5 "GC/Owner")
        1 6 "Description")).1.cells 1 3 = some "Estimator" ∧
      (ensure_headers (writeCell (writeCell (writeCell (writeCell (writeCell (writeCell emptyWS
        1 1 "Folder Name") 1 2 "Bid#") 1 3 "Estimator") 1 4 "Due Date") 1 5 "GC/Owner")
        1 6 "Description")).1.cells 1 4 = some "Bid Due Date" ∧
      (ensure_headers (writeCell (writeCell (writeCell (writeCell (writeCell (writeCell emptyWS
        1 1 "Folder Name") 1 2 "Bid#") 1 3 "Estimator") 1 4 "Due Date") 1 5 "GC/Owner")
        1 6 "Description")).1.cells 1 5 = some "Customer/GC" ∧
      (ensure_headers (writeCell (writeCell (writeCell (writeCell (writeCell (writeCell emptyWS
        1 1 "Folder Name") 1 2 "Bid#") 1 3 "Estimator") 1 4 "Due Date") 1 5 "GC/Owner")
        1 6 "Description")).1.cells 1 6 = some "Bid Name" ∧
      (ensure_headers (writeCell (writeCell (writeCell (writeCell (writeCell (writeCell emptyWS
        1 1 "Folder Name") 1 2 "Bid#") 1 3 "Estimator") 1 4 "Due Date") 1 5 "GC/Owner")
        1 6 "Description")).1.cells 1 7 = some "Proposal Date" ∧
      (ensure_headers (writeCell (writeCell (writeCell (writeCell (writeCell (writeCell emptyWS
        1 1 "Folder Name") 1 2 "Bid#") 1 3 "Estimator") 1 4 "Due Date") 1 5 "GC/Owner")
        1 6 "Description")).1.cells 1 8 = some "Proposal Amount" ∧
      (ensure_headers (writeCell (writeCell (writeCell (writeCell (writeCell (writeCell emptyWS
        1 1 "Folder Name") 1 2 "Bid#") 1 3 "Estimator") 1 4 "Due Date") 1 5 "GC/Owner")
        1 6 "Description")).1.cells 1 9 = some "Bid Status") :=
  ⟨fun ws => ensure_headers_map ws,
   fun ws => ensure_headers_row1 ws,
   fun ws r c h => ensure_headers_frame ws r c h,
   fun ws col h1 h2 h3 => ensure_headers_cell_1030 ws col h1 h2 h3,
   fun ws col s h1 h2 h3 h4 => ensure_headers_alias ws col s h1 h2 h3 h4,
   by decide⟩

/-- Witness: the mapping and header row of the normalized empty sheet, the
untouched data cell, the preserved empty column 15, and the in-place
rewrite of a legacy label at column 12. -/
theorem ensure_headers_spec_witness :
    (ensure_headers emptyWS).2 "Bid Folder" = some 1 ∧
    (ensure_headers emptyWS).1.cells 1 9 = some "Bid Status" ∧
    (ensure_headers emptyWS).1.cells 2 3 = emptyWS.cells 2 3 ∧
    (ensure_headers emptyWS).1.cells 1 15 = emptyWS.cells 1 15 ∧
    (ensure_headers (writeCell emptyWS 1 12 "Bid#")).1.cells 1 12 =
      some (legacyMap "Bid#") :=
  ⟨(ensure_headers_spec.1 emptyWS).1,
   (ensure_headers_spec.2.1 emptyWS).2.2.2.2.2.2.2.2,
   ensure_headers_spec.2.2.1 emptyWS 2 3 (by decide),
   ensure_headers_spec.2.2.2.1 emptyWS 15 (by decide) (by decide)
     (fun s hs => Option.noConfusion hs),
   ensure_headers_spec.2.2.2.2.1 (writeCell emptyWS 1 12 "Bid#") 12 "Bid#"
     (by decide) (by decide) (by decide) (by decide)⟩

/-- Claim C5: on a store whose primary file is exclusively locked, the sync
completes successfully; the reported save path is the side-copy named by
inserting " - Pending Update <stamp>" before the extension; that path
differs from the original; the mutated workbook is written only to the
side-copy; and the content stored at the original path is unchanged. -/
theorem locked_store_side_copy (fs : FS) (path : WPath) (nm stamp : String) (wb : Workbook)
    (root : List String)
    (hfile : fs.files path = some wb) (hlock : fs.locked path = true) :
    ∃ fs2, sync_bid_workbook fs root path nm stamp =
        .ok (fs2, get_pending_save_path path stamp) ∧
      fs2.files path = fs.files path ∧
      ¬ get_pending_save_path path stamp = path ∧
      fs2.files (get_pending_save_path path stamp) =
        some (setSheet wb nm (syncWS root (getSheet wb nm))) := by
  have hne : ¬ get_pending_save_path path stamp = path := by
    intro h
    have hst := congrArg WPath.stem h
    unfold get_pending_save_path at hst
    simp only at hst
    have hlen := congrArg String.length hst
    rw [String.length_append, String.length_append] at hlen
    have h18 : (" - Pending Update " : String).length = 18 := by decide
    omega
  refine ⟨⟨fun q => if q = get_pending_save_path path stamp
        then some (setSheet wb nm (syncWS root (getSheet wb nm)))
        else (if q = get_pending_save_path path stamp then some wb else fs.files q),
      fun q => if q = get_pending_save_path path stamp then false else fs.locked q⟩,
    ?_, ?_, hne, ?_⟩
  · unfold sync_bid_workbook new_excel_context
    simp only [hfile, hlock, if_true]
    rfl
  · show (if path = get_pending_save_path path stamp
        then some (setSheet wb nm (syncWS root (getSheet wb nm)))
        else (if path = get_pending_save_path path stamp then some wb else fs.files path)) =
      fs.files path
    rw [if_neg (fun h => hne h.symm), if_neg (fun h => hne h.symm)]
  · show (if get_pending_save_path path stamp = get_pending_save_path path stamp
        then some (setSheet wb nm (syncWS root (getSheet wb nm)))
        else _) = _
    rw [if_pos rfl]

/-- Witness: a concrete locked single-file store routes the sync to the
timestamped side-copy and leaves the original untouched. -/
theorem locked_store_side_copy_witness :
    ∃ fs2, sync_bid_workbook
        ⟨fun q => if q = ⟨"Bids", ".xlsx"⟩ then some [("S", emptyWS)] else none,
         fun q => q = ⟨"Bids", ".xlsx"⟩⟩
        ["5 - MD - 01-02 - Acme - Lobby"] ⟨"Bids", ".xlsx"⟩ "S" "20250101-000000" =
        .ok (fs2, get_pending_save_path ⟨"Bids", ".xlsx"⟩ "20250101-000000") ∧
      fs2.files ⟨"Bids", ".xlsx"⟩ =
        FS.files
          ⟨fun q => if q = ⟨"Bids", ".xlsx"⟩ then some [("S", emptyWS)] else none,
           fun q => q = ⟨"Bids", ".xlsx"⟩⟩ ⟨"Bids", ".xlsx"⟩ ∧
      ¬ get_pending_save_path ⟨"Bids", ".xlsx"⟩ "20250101-000000" = ⟨"Bids", ".xlsx"⟩ ∧
      fs2.files (get_pending_save_path ⟨"Bids", ".xlsx"⟩ "20250101-000000") =
        some (setSheet [("S", emptyWS)] "S"
          (syncWS ["5 - MD - 01-02 - Acme - Lobby"]
            (getSheet [("S", emptyWS)] "S"))) :=
  locked_store_side_copy _ _ _ _ _ _ rfl rfl

/-- Claim C6: syncing the folders "5 - MD - 01-02 - Acme - Lobby" and
"6 - JS - 03-04 - Beta - Roof" into an empty sheet produces exactly two
data rows, on the sequential rows 2 and 3, holding bid numbers "5" and "6"
and the decoded fields of each folder; the row count grows from 1 to
exactly 3, the running last-row counter ends at 3, and every cell below
row 3 is still empty. -/
theorem sync_two_folders_spec :
    ((syncWS ["5 - MD - 01-02 - Acme - Lobby", "6 - JS - 03-04 - Beta - Roof"]
        emptyWS).cells 2 1 = some "5 - MD - 01-02 - Acme - Lobby" ∧
      (syncWS ["5 - MD - 01-02 - Acme - Lobby", "6 - JS - 03-04 - Beta - Roof"]
        emptyWS).cells 2 2 = some "5" ∧
      (syncWS ["5 - MD - 01-02 - Acme - Lobby", "6 - JS - 03-04 - Beta - Roof"]
        emptyWS).cells 2 3 = some "MD" ∧
      (syncWS ["5 - MD - 01-02 - Acme - Lobby", "6 - JS - 03-04 - Beta - Roof"]
        emptyWS).cells 2 4 = some "01-02" ∧
      (syncWS ["5 - MD - 01-02 - Acme - Lobby", "6 - JS - 03-04 - Beta - Roof"]
        emptyWS).cells 2 5 = some "Acme" ∧
      (syncWS ["5 - MD - 01-02 - Acme - Lobby", "6 - JS - 03-04 - Beta - Roof"]
        emptyWS).cells 2 6 = some "Lobby" ∧
      (syncWS ["5 - MD - 01-02 - Acme - Lobby", "6 - JS - 03-04 - Beta - Roof"]
        emptyWS).cells 3 1 = some "6 - JS - 03-04 - Beta - Roof" ∧
      (syncWS ["5 - MD - 01-02 - Acme - Lobby", "6 - JS - 03-04 - Beta - Roof"]
        emptyWS).cells 3 2 = some "6" ∧
      (syncWS ["5 - MD - 01-02 - Acme - Lobby", "6 - JS - 03-04 - Beta - Roof"]
        emptyWS).cells 3 3 = some "JS" ∧
      (syncWS ["5 - MD - 01-02 - Acme - Lobby", "6 - JS - 03-04 - Beta - Roof"]
        emptyWS).cells 3 4 = some "03-04" ∧
      (syncWS ["5 - MD - 01-02 - Acme - Lobby", "6 - JS - 03-04 - Beta - Roof"]
        emptyWS).cells 3 5 = some "Beta" ∧
      (syncWS ["5 - MD - 01-02 - Acme - Lobby", "6 - JS - 03-04 - Beta - Roof"]
        emptyWS).cells 3 6 = some "Roof" ∧
      emptyWS.maxRow = 1 ∧
      (syncWS ["5 - MD - 01-02 - Acme - Lobby", "6 - JS - 03-04 - Beta - Roof"]
        emptyWS).maxRow = 3 ∧
      (sync_rows (ensure_headers emptyWS).2 (ensure_headers emptyWS).1
        ["5 - MD - 01-02 - Acme - Lobby", "6 - JS - 03-04 - Beta - Roof"]).2 = 3) ∧
    (∀ r c, 3 < r →
      (syncWS ["5 - MD - 01-02 - Acme - Lobby", "6 - JS - 03-04 - Beta - Roof"]
        emptyWS).cells r c = none) := by
  constructor
  · exact ⟨rfl, rfl, rfl, rfl, rfl, rfl, rfl, rfl, rfl, rfl, rfl, rfl, rfl, rfl, rfl⟩
  · intro r c hr
    obtain ⟨ws1, hfold, hmax1, hrows1, hframe1⟩ :=
      sync_append_run
        (get_bid_folders ["5 - MD - 01-02 - Acme - Lobby", "6 - JS - 03-04 - Beta - Roof"])
        [] (ensure_headers emptyWS).1
        (by decide)
        (fun t rec h => by
          rw [show ([] : List BidFolderInfo).get? t = none from by cases t <;> rfl] at h
          exact Option.noConfusion h)
        (fun rec h => absurd h (List.not_mem_nil rec))
        (by decide)
        (by decide)
        (fun rec h => absurd h (List.not_mem_nil rec))
    simp only [List.nil_append, List.length_nil, Nat.zero_add] at hfold hmax1 hrows1 hframe1
    have hsync : syncWS ["5 - MD - 01-02 - Acme - Lobby", "6 - JS - 03-04 - Beta - Roof"]
        emptyWS = ws1 := by
      rw [syncWS_eq_fold]
      rw [show get_last_row (ensure_headers emptyWS).1 = 1 from by decide]
      rw [hfold]
    rw [hsync]
    have hlen : (recs (get_bid_folders
        ["5 - MD - 01-02 - Acme - Lobby", "6 - JS - 03-04 - Beta - Roof"])).length = 2 := by
      decide
    rw [hframe1 r c (Or.inr (by rw [hlen]; omega))]
    rw [ensure_headers_frame emptyWS r c (by omega)]
    rfl

/-- Witness: the first cell below the two new rows is still empty. -/
theorem sync_two_folders_spec_witness :
    (syncWS ["5 - MD - 01-02 - Acme - Lobby", "6 - JS - 03-04 - Beta - Roof"]
      emptyWS).cells 4 2 = none :=
  sync_two_folders_spec.2 4 2 (by decide)

/-- Claim C7 (amended): `get_next_bid_number` returns one plus the maximum
over all names of the number matched by the pattern
optional-whitespace-digits-word-boundary at the start of the name, an
unmatched name contributing 0, and fails with the NotFound error exactly
when that maximum is 0; on the three example names it returns 14.  (The
original claim, reading the match as the bare leading digit run, is
refuted by `next_bid_number_cex`: a digit run followed by a letter has no
word boundary and does not match.) -/
theorem next_bid_number_spec (names : List String) :
    get_next_bid_number names =
      (if maxLead names = 0 then .error (.notFound "No existing bid-number folders found")
       else .ok (maxLead names + 1)) ∧
    get_next_bid_number ["12 - MD - Lobby", "7 - JS - Roof", "13-something"] = .ok 14 :=
  ⟨get_next_bid_number_eq names, rfl⟩

/-- Claim C7 counterexample: the name "12abc" has the leading digit run 12,
yet the regular expression does not match it (the digits are followed by a
letter, so there is no word boundary), and the call fails instead of
returning 13. -/
theorem next_bid_number_cex :
    claimLeadDigits "12abc" = some 12 ∧
    leadNumber "12abc" = none ∧
    get_next_bid_number ["12abc"] =
      .error (.notFound "No existing bid-number folders found") :=
  ⟨by decide, by decide, rfl⟩

/-- Claim C8 (amended): `normalize_bid_date` accepts exactly the strings of
the claimed month-dash-day language, except that it also tolerates one
trailing newline (the `$` anchor of the Python pattern matches before a
string-final newline); it zero-pads the output and fails with a validation
error on everything else, as on the three rejected examples.  (The original
claim, with no newline tolerance, is refuted by
`normalize_due_date_cex`.) -/
theorem normalize_due_date_spec (s : String) :
    normalize_bid_date s = claimNormalizeNL s ∧
    normalize_bid_date "12-5" = .ok "12-05" ∧
    normalize_bid_date "12-05" = .ok "12-05" ∧
    normalize_bid_date "1-1" = .ok "01-01" ∧
    normalize_bid_date "02-30" = .ok "02-30" ∧
    normalize_bid_date "13-01" = .error (.validation "13-01") ∧
    normalize_bid_date "00-05" = .error (.validation "00-05") ∧
    normalize_bid_date "12-32" = .error (.validation "12-32") :=
  ⟨normalize_eq_claimNL s, rfl, rfl, rfl, rfl, rfl, rfl, rfl⟩

/-- Claim C8 counterexample: the input "12-5" followed by a newline is not
of the claimed month-dash-day form, yet it is accepted and normalized. -/
theorem normalize_due_date_cex :
    normalize_bid_date "12-5\n" = .ok "12-05" ∧
    claimNormalize "12-5\n" = .error (.validation "12-5\n") :=
  ⟨rfl, rfl⟩

/-- Claim C9 (amended): decode returns null exactly when splitting yields
fewer than five parts, and it splits on the regular-expression separator
whitespace-dash-whitespace, not only on the literal " - ": any two
whitespace characters around a dash separate, the first four splits are
leftmost and literal, the fifth part absorbs the rest, and every part is
trimmed.  (The literal-separator reading of the original claim is refuted
by `decode_cex`, where tab-dash-tab separators split a name the claimed
decoder leaves whole.) -/
theorem decode_spec :
    (∀ s, parse_bid_folder_name s = none ↔ (splitWS 4 [] s.toList).length < 5) ∧
    (∀ g1 g2 g3 g4 g5 : List Char, ∀ w1 w2 w3 w4 w5 w6 w7 w8 : Char,
      isWS w1 = true → isWS w2 = true → isWS w3 = true → isWS w4 = true →
      isWS w5 = true → isWS w6 = true → isWS w7 = true → isWS w8 = true →
      containsWDW g1 = false → endsWD g1 = false →
      containsWDW g2 = false → endsWD g2 = false →
      containsWDW g3 = false → endsWD g3 = false →
      containsWDW g4 = false → endsWD g4 = false →
      parse_bid_folder_name ⟨g1 ++ w1 :: '-' :: w2 :: (g2 ++ w3 :: '-' :: w4 ::
          (g3 ++ w5 :: '-' :: w6 :: (g4 ++ w7 :: '-' :: w8 :: g5)))⟩ =
        some ⟨⟨trimL g1⟩, ⟨trimL g2⟩, ⟨trimL g3⟩, ⟨trimL g4⟩, ⟨trimL g5⟩,
          ⟨g1 ++ w1 :: '-' :: w2 :: (g2 ++ w3 :: '-' :: w4 ::
            (g3 ++ w5 :: '-' :: w6 :: (g4 ++ w7 :: '-' :: w8 :: g5)))⟩⟩) :=
  ⟨fun s => decode_none_iff s,
   fun g1 g2 g3 g4 g5 w1 w2 w3 w4 w5 w6 w7 w8 hw1 hw2 hw3 hw4 hw5 hw6 hw7 hw8
       c1 e1 c2 e2 c3 e3 c4 e4 =>
     decode_ws_sep g1 g2 g3 g4 g5 w1 w2 w3 w4 w5 w6 w7 w8 hw1 hw2 hw3 hw4 hw5 hw6 hw7 hw8
       c1 e1 c2 e2 c3 e3 c4 e4⟩

/-- Witness: the null criterion on a separator-free name, and a five-part
name joined by tab-dash-tab separators decoding to its trimmed parts. -/
theorem decode_spec_witness :
    (parse_bid_folder_name "ab" = none ↔ (splitWS 4 [] "ab".toList).length < 5) ∧
    parse_bid_folder_name ⟨['1'] ++ '\t' :: '-' :: '\t' :: (['2'] ++ '\t' :: '-' :: '\t' ::
        (['3'] ++ '\t' :: '-' :: '\t' :: (['4'] ++ '\t' :: '-' :: '\t' :: ['5'])))⟩ =
      some ⟨⟨trimL ['1']⟩, ⟨trimL ['2']⟩, ⟨trimL ['3']⟩, ⟨trimL ['4']⟩, ⟨trimL ['5']⟩,
        ⟨['1'] ++ '\t' :: '-' :: '\t' :: (['2'] ++ '\t' :: '-' :: '\t' ::
          (['3'] ++ '\t' :: '-' :: '\t' :: (['4'] ++ '\t' :: '-' :: '\t' :: ['5'])))⟩⟩ :=
  ⟨decode_spec.1 "ab",
   decode_spec.2 ['1'] ['2'] ['3'] ['4'] ['5'] '\t' '\t' '\t' '\t' '\t' '\t' '\t' '\t'
     (by decide) (by decide) (by decide) (by decide) (by decide) (by decide) (by decide)
     (by decide) (by decide) (by decide) (by decide) (by decide) (by decide) (by decide)
     (by decide) (by decide)⟩

/-- Claim C9 counterexample: with tab-dash-tab between the parts, the
decoder asserted by the claim finds a single part and returns null, but the
program splits the name into five parts and decodes it. -/
theorem decode_cex :
    claimDecode "1\t-\t2\t-\t3\t-\t4\t-\t5" = none ∧
    parse_bid_folder_name "1\t-\t2\t-\t3\t-\t4\t-\t5" =
      some ⟨"1", "2", "3", "4", "5", "1\t-\t2\t-\t3\t-\t4\t-\t5"⟩ := by
  decide

/-- Claim C10: "Award" is not a canonical header; on a worksheet whose
header row nowhere reads "Award", the mapping returned by `ensure_headers`
has no "Award" entry, and `update_bid_status` discards the Award answer
entirely: its body produces the same outcome and the same worksheet for any
two Award inputs, so no cell is ever written for it. -/
theorem award_discarded (ws0 : Worksheet) (bn st : String) (ua : Bool) (ai : String)
    (ud : Bool) (di : String) (a1 a2 : String)
    (hno : ∀ col, 1 ≤ col → col ≤ 30 → ws0.cells 1 col ≠ some "Award") :
    ¬ "Award" ∈ HEADER_DEFAULTS ∧
    (ensure_headers ws0).2 "Award" = none ∧
    update_core ws0 ⟨bn, st, ua, ai, ud, di, a1⟩ =
      update_core ws0 ⟨bn, st, ua, ai, ud, di, a2⟩ := by
  have hA := ensure_headers_award ws0 hno
  refine ⟨by decide, hA, ?_⟩
  unfold update_core
  simp only [hA, Option.isSome_none]
  rcases get_row_index_by_value (ensure_headers ws0).1
      (hcol (ensure_headers ws0).2 "Bid Number") bn with - | row
  · rfl
  · simp only [Bool.false_eq_true, if_false]

/-- Witness: on a sheet with an empty header row, two updates differing
only in the Award answer coincide. -/
theorem award_discarded_witness :
    ¬ "Award" ∈ HEADER_DEFAULTS ∧
    (ensure_headers emptyWS).2 "Award" = none ∧
    update_core emptyWS ⟨"5", "won", false, "", false, "", "YES"⟩ =
      update_core emptyWS ⟨"5", "won", false, "", false, "", "NO"⟩ :=
  award_discarded emptyWS "5" "won" false "" false "" "YES" "NO"
    (fun col h1 h2 h => Option.noConfusion h)

end BidTools
